import Mathlib

/-!
Verification of the byte-by-byte JSON parser state machine of `cJSON_Byte.c`
(`cJSON_Put` / `putbyte` and its per-state handler functions).

Modelling conventions:
* Bytes are `Char` values with code points below 256.  The C parameter type is
  plain `char`, which is signed on the reference platform (x86-64 Linux gcc),
  so comparisons such as `byte <= 0x20` see bytes `0x80`-`0xFF` as negative;
  `csign` makes that explicit.
* The C value tree `cJSON` becomes the nested inductive `JNode`.  The C sibling
  chain (`child` points at the newest child, `prev` links toward the first
  child, `next` toward the newest) is modelled as a `List JNode` in
  newest-first order; the C rewind loop `while (child->prev) child = child->prev`
  followed by forward traversal therefore becomes `List.reverse`.
* The process-wide scratch buffer (`static size_t scratch_it` and
  `static char scratchbuf[128]`) is threaded explicitly as a `List Char` whose
  length is `scratch_it`; `sizeof(scratchbuf) = 128`.
* `item->valueint` doubles as the parser state (the source's `#define STATE
  item->valueint`), so `NodeData.valueint : Int` holds the state constants and
  is clobbered by `cJSON_SetNumberValue` exactly as in C.
* Heap allocation never fails in the model (the `malloc == NULL` branches are
  unreachable here); `cJSON_Delete` on the failure path of `cJSON_Put` is
  modelled by returning `none`.
-/

/-- The three-way per-byte result: `STATE_RETURN_FAIL`, `STATE_RETURN_CONT`,
`STATE_RETURN_DONE` of the source (the spec's Fail / Continue / Complete). -/
inductive Ret where
  | fail
  | cont
  | done
deriving DecidableEq

/-- Modelled from the spec: the node kind tags of the external value-tree
library `cJSON.h` (`cJSON_Invalid`, `cJSON_False`, ..., `cJSON_Object`).
Only distinctness of the tags matters to the parser; a node fresh from
`cJSON_New_Item_2` (memset to zero) has the `invalid` tag. -/
inductive CType where
  | invalid
  | cfalse
  | ctrue
  | cnull
  | number
  | string
  | array
  | object
deriving DecidableEq

/-- The scalar fields of a `cJSON` node used by the parser: `type`,
`valueint` (aliased as the parser STATE), `valuestring`, `string` (the member
key), `valuedouble`.  `valuedouble` is modelled as an exact rational; the C
`double` rounds this value to the nearest binary64. -/
structure NodeData where
  type : CType
  valueint : Int
  valuestring : Option (List Char)
  string : Option (List Char)
  valuedouble : Rat
deriving DecidableEq

/-- A `cJSON` node: scalar fields plus the children, newest first
(see the module comment on the `child`/`prev`/`next` encoding). -/
inductive JNode where
  | mk (data : NodeData) (kids : List JNode)

def JNode.data : JNode → NodeData
  | .mk d _ => d

def JNode.kids : JNode → List JNode
  | .mk _ k => k

/-- The zero-initialised node produced by `cJSON_New_Item_2` (memset to 0). -/
def zeroData : NodeData :=
  { type := .invalid, valueint := 0, valuestring := none, string := none, valuedouble := 0 }

def zeroNode : JNode := .mk zeroData []

/-- State constants of the anonymous enum in `cJSON_Byte.c`, in declaration
order starting at 0 (so `STATE item->valueint` starts out as `STATE_ITEM`
for a zeroed node). -/
def STATE_ITEM : Int := 0
def STATE_OBJECT_KEY : Int := 1
def STATE_OBJECT_KEY_PARSED : Int := 2
def STATE_OBJECT_VALUE : Int := 3
def STATE_OBJECT_VALUE_PARSED : Int := 4
def STATE_ARRAY_VALUE : Int := 5
def STATE_ARRAY_VALUE_PARSED : Int := 6
def STATE_STRING : Int := 7
def STATE_SPECIAL_CHAR : Int := 8
def STATE_NUMBER : Int := 9
def STATE_TRUE : Int := 10
def STATE_FALSE : Int := 11
def STATE_NULL : Int := 12

/-- The value of a byte read through C's (signed, on the reference platform)
`char`: code points `0x80`-`0xFF` are negative. -/
def csign (c : Char) : Int :=
  if c.toNat < 128 then (c.toNat : Int) else (c.toNat : Int) - 256

/-- `is_whitespace` of the source: `byte <= 0x20` on the signed `char`. -/
def is_whitespace (c : Char) : Bool :=
  csign c ≤ 0x20

/-- `string_append` of the source.  The shared scratch buffer has room for 128
bytes; a NUL byte finalises the accumulated bytes into `valuestring`. -/
def string_append (n : JNode) (byte : Char) (st : List Char) :
    Ret × JNode × List Char :=
  if 128 ≤ st.length then (.fail, n, st)
  else if byte.toNat = 0 then
    (.done, .mk { n.data with valuestring := some st } n.kids, [])
  else
    (.cont, n, st ++ [byte])

def isDigit (c : Char) : Bool := 48 ≤ c.toNat && c.toNat ≤ 57

/-- The byte set accepted inside a number literal by `state_number`
(digits, `.`, `e`, `E`, `-`, `+`). -/
def numMember (c : Char) : Bool :=
  isDigit c || c = '.' || c = 'e' || c = 'E' || c = '-' || c = '+'

def digitsToNat (l : List Char) : Nat :=
  l.foldl (fun a c => 10 * a + (c.toNat - 48)) 0

/-- Modelled from the spec: the numeric value produced by the external libc
`strtod` on the accumulated literal ("parse scratch as a decimal float"),
as an exact rational: optional sign, integer digits, optional fraction,
optional exponent (consumed only if at least one exponent digit follows),
reading the longest valid prefix; no digits at all yields 0.  The C `double`
is the binary64 rounding of this rational. -/
def strtodQ (s : List Char) : Rat :=
  let p := match s with
    | '-' :: t => ((-1 : Int), t)
    | '+' :: t => ((1 : Int), t)
    | _ => ((1 : Int), s)
  let ip := p.2.span isDigit
  let fp := match ip.2 with
    | '.' :: t => t.span isDigit
    | _ => ([], ip.2)
  if ip.1.isEmpty && fp.1.isEmpty then 0
  else
    let mant : Nat := digitsToNat (ip.1 ++ fp.1)
    let ev : Int := match fp.2 with
      | e :: t =>
        if e = 'e' ∨ e = 'E' then
          let q := match t with
            | '-' :: u => ((-1 : Int), u)
            | '+' :: u => ((1 : Int), u)
            | _ => ((1 : Int), t)
          let ed := q.2.span isDigit
          if ed.1.isEmpty then 0 else q.1 * (digitsToNat ed.1 : Int)
        else 0
      | [] => 0
    let ex : Int := ev - (fp.1.length : Int)
    if 0 ≤ ex then mkRat (p.1 * (mant : Int) * (10 : Int) ^ ex.toNat) 1
    else mkRat (p.1 * (mant : Int)) ((10 : Nat) ^ (-ex).toNat)

/-- Modelled from the spec: `cJSON_SetNumberValue` of the external value-tree
library stores the parsed number in `valueint` as well, truncated toward zero
and saturated at `INT_MAX`/`INT_MIN`. -/
def ratToCInt (q : Rat) : Int :=
  if (2147483647 : Rat) ≤ q then 2147483647
  else if q ≤ (-2147483648 : Rat) then -2147483648
  else q.num / (q.den : Int)

/-- `state_item` of the source: the first byte of a value fixes `type` and the
next state; `t`/`f`/`n` and number starts also seed the scratch buffer.
(The C write `scratchbuf[scratch_it++] = byte` is unchecked; the model appends
unconditionally, faithful for in-capacity runs.) -/
def state_item (n : JNode) (byte : Char) (st : List Char) :
    Ret × JNode × List Char :=
  if byte = '{' then
    (.cont, .mk { n.data with valueint := STATE_OBJECT_KEY, type := .object } n.kids, st)
  else if byte = '[' then
    (.cont, .mk { n.data with valueint := STATE_ARRAY_VALUE, type := .array } n.kids, st)
  else if byte = '"' then
    (.cont, .mk { n.data with valueint := STATE_STRING, type := .string } n.kids, st)
  else if byte = 't' then
    (.cont, .mk { n.data with valueint := STATE_TRUE, type := .ctrue } n.kids, st ++ [byte])
  else if byte = 'f' then
    (.cont, .mk { n.data with valueint := STATE_FALSE, type := .cfalse } n.kids, st ++ [byte])
  else if byte = 'n' then
    (.cont, .mk { n.data with valueint := STATE_NULL, type := .cnull } n.kids, st ++ [byte])
  else if byte = '-' ∨ isDigit byte then
    (.cont, .mk { n.data with valueint := STATE_NUMBER, type := .number } n.kids, st ++ [byte])
  else
    (.fail, n, st)

/-- `state_string` of the source.  Note both `string_append` results are
discarded: a content byte always yields Continue and the closing quote always
yields Done, even when the scratch buffer is full. -/
def state_string (n : JNode) (byte : Char) (st : List Char) :
    Ret × JNode × List Char :=
  if byte = '"' then
    (.done, (string_append n (Char.ofNat 0) st).2.1, (string_append n (Char.ofNat 0) st).2.2)
  else if byte = '\\' then
    (.cont, .mk { n.data with valueint := STATE_SPECIAL_CHAR } n.kids, st)
  else
    (.cont, (string_append n byte st).2.1, (string_append n byte st).2.2)

/-- `state_special_char` of the source: the byte after a backslash. -/
def state_special_char (n : JNode) (byte : Char) (st : List Char) :
    Ret × JNode × List Char :=
  if byte = 'b' then
    (.cont, .mk { (string_append n (Char.ofNat 8) st).2.1.data with
      valueint := STATE_STRING } (string_append n (Char.ofNat 8) st).2.1.kids,
      (string_append n (Char.ofNat 8) st).2.2)
  else if byte = 'f' then
    (.cont, .mk { (string_append n (Char.ofNat 12) st).2.1.data with
      valueint := STATE_STRING } (string_append n (Char.ofNat 12) st).2.1.kids,
      (string_append n (Char.ofNat 12) st).2.2)
  else if byte = 'n' then
    (.cont, .mk { (string_append n (Char.ofNat 10) st).2.1.data with
      valueint := STATE_STRING } (string_append n (Char.ofNat 10) st).2.1.kids,
      (string_append n (Char.ofNat 10) st).2.2)
  else if byte = 'r' then
    (.cont, .mk { (string_append n (Char.ofNat 13) st).2.1.data with
      valueint := STATE_STRING } (string_append n (Char.ofNat 13) st).2.1.kids,
      (string_append n (Char.ofNat 13) st).2.2)
  else if byte = 't' then
    (.cont, .mk { (string_append n (Char.ofNat 9) st).2.1.data with
      valueint := STATE_STRING } (string_append n (Char.ofNat 9) st).2.1.kids,
      (string_append n (Char.ofNat 9) st).2.2)
  else if byte = '"' ∨ byte = '\\' ∨ byte = '/' then
    (.cont, .mk { (string_append n byte st).2.1.data with
      valueint := STATE_STRING } (string_append n byte st).2.1.kids,
      (string_append n byte st).2.2)
  else
    (.fail, n, st)

/-- `state_number` of the source: member bytes accumulate (unchecked write in
C); a terminator (whitespace, `,`, `}`, `]`) finalises via `strtod` and
`cJSON_SetNumberValue` (which clobbers `valueint`, i.e. the state field);
anything else fails. -/
def state_number (n : JNode) (byte : Char) (st : List Char) :
    Ret × JNode × List Char :=
  if numMember byte then
    (.cont, n, st ++ [byte])
  else if is_whitespace byte || byte = ',' || byte = '}' || byte = ']' then
    let q := strtodQ st
    (.done, .mk { n.data with valuedouble := q, valueint := ratToCInt q } n.kids, [])
  else
    (.fail, n, st)

/-- `state_true` of the source: append, wait for 4 scratch bytes, then compare
against `true` (`strncmp(scratchbuf, "true", 4)`). -/
def state_true (n : JNode) (byte : Char) (st : List Char) :
    Ret × JNode × List Char :=
  let st' := st ++ [byte]
  if st'.length < 4 then (.cont, n, st')
  else if st'.take 4 = ['t', 'r', 'u', 'e'] then (.done, n, [])
  else (.fail, n, st')

/-- `state_false` of the source (keyword length 5). -/
def state_false (n : JNode) (byte : Char) (st : List Char) :
    Ret × JNode × List Char :=
  let st' := st ++ [byte]
  if st'.length < 5 then (.cont, n, st')
  else if st'.take 5 = ['f', 'a', 'l', 's', 'e'] then (.done, n, [])
  else (.fail, n, st')

/-- `state_null` of the source (keyword length 4). -/
def state_null (n : JNode) (byte : Char) (st : List Char) :
    Ret × JNode × List Char :=
  let st' := st ++ [byte]
  if st'.length < 4 then (.cont, n, st')
  else if st'.take 4 = ['n', 'u', 'l', 'l'] then (.done, n, [])
  else (.fail, n, st')

/-- `state_object_key_parsed` of the source: skip whitespace, `:` moves to
`STATE_OBJECT_VALUE`, anything else fails. -/
def state_object_key_parsed (n : JNode) (byte : Char) (st : List Char) :
    Ret × JNode × List Char :=
  if is_whitespace byte then (.cont, n, st)
  else if byte = ':' then
    (.cont, .mk { n.data with valueint := STATE_OBJECT_VALUE } n.kids, st)
  else (.fail, n, st)

/-- `state_object_array_value_parsed` of the source: between values.  `,`
appends a fresh sibling (which becomes the current child, i.e. the head of the
newest-first list) and reopens the container state; the matching closer rewinds
the child chain to its head (`List.reverse` here) and completes. -/
def state_object_array_value_parsed (n : JNode) (byte : Char) (st : List Char) :
    Ret × JNode × List Char :=
  if is_whitespace byte then (.cont, n, st)
  else if byte = ',' then
    (.cont, .mk { n.data with
        valueint := if n.data.valueint = STATE_ARRAY_VALUE_PARSED
          then STATE_ARRAY_VALUE else STATE_OBJECT_KEY }
      (zeroNode :: n.kids), st)
  else if (byte = ']' ∧ n.data.valueint = STATE_ARRAY_VALUE_PARSED)
      ∨ (byte = '}' ∧ n.data.valueint = STATE_OBJECT_VALUE_PARSED) then
    (.done, .mk n.data n.kids.reverse, st)
  else (.fail, n, st)

/-- The tail of `state_object_array_value` after `putbyte(item->child, byte)`
returned: on Done flip the state to the matching Parsed state and, when the
child finished as a number (whose terminator byte has just been consumed by
the child), put the byte back into the parent -- which is now in a Parsed
state, so that replayed `putbyte(item, byte)` is exactly
`state_object_array_value_parsed` (see `putbyte_at_value_parsed`). -/
def childDoneStep (d : NodeData) (rest : List JNode)
    (r : Ret × JNode × List Char) (byte : Char) : Ret × JNode × List Char :=
  match r with
  | (.done, c', st') =>
    let d' := { d with valueint := if d.valueint = STATE_ARRAY_VALUE
        then STATE_ARRAY_VALUE_PARSED else STATE_OBJECT_VALUE_PARSED }
    if c'.data.type = .number then
      state_object_array_value_parsed (.mk d' (c' :: rest)) byte st'
    else
      (.cont, .mk d' (c' :: rest), st')
  | (ret, c', st') => (ret, .mk d (c' :: rest), st')

/-- `putbyte` of the source: dispatch on `STATE` (`item->valueint`).  The two
recursive handlers `state_object_key` and `state_object_array_value` are
inlined here (marked by comments); the C calls `putbyte` on a freshly
allocated child, which is in `STATE_ITEM`, so that call is written as
`state_item` directly (see `putbyte_at_item`). -/
def putbyte : JNode → Char → List Char → Ret × JNode × List Char
  | .mk d kids, byte, st =>
    if d.valueint = STATE_ITEM then state_item (.mk d kids) byte st
    else if d.valueint = STATE_OBJECT_KEY then
      -- state_object_key
      match kids with
      | [] =>
        if is_whitespace byte then (.cont, .mk d [], st)
        else if byte = '}' then (.done, .mk d [], st)
        else if byte = '"' then
          (.cont, .mk d
            [.mk { zeroData with type := .string, valueint := STATE_STRING } []], st)
        else (.fail, .mk d [], st)
      | c :: rest =>
        match putbyte c byte st with
        | (.done, c', st') =>
          (.cont, .mk { d with valueint := STATE_OBJECT_KEY_PARSED }
            (.mk { c'.data with
                string := c'.data.valuestring,
                valuestring := none,
                valueint := STATE_ITEM } c'.kids :: rest), st')
        | (r, c', st') => (r, .mk d (c' :: rest), st')
    else if d.valueint = STATE_OBJECT_KEY_PARSED then
      state_object_key_parsed (.mk d kids) byte st
    else if d.valueint = STATE_OBJECT_VALUE ∨ d.valueint = STATE_ARRAY_VALUE then
      -- state_object_array_value
      match kids with
      | [] =>
        if is_whitespace byte then (.cont, .mk d [], st)
        else if byte = ']' then (.done, .mk d [], st)
        else childDoneStep d [] (state_item zeroNode byte st) byte
      | c :: rest => childDoneStep d rest (putbyte c byte st) byte
    else if d.valueint = STATE_OBJECT_VALUE_PARSED ∨ d.valueint = STATE_ARRAY_VALUE_PARSED then
      state_object_array_value_parsed (.mk d kids) byte st
    else if d.valueint = STATE_STRING then state_string (.mk d kids) byte st
    else if d.valueint = STATE_SPECIAL_CHAR then state_special_char (.mk d kids) byte st
    else if d.valueint = STATE_NUMBER then state_number (.mk d kids) byte st
    else if d.valueint = STATE_TRUE then state_true (.mk d kids) byte st
    else if d.valueint = STATE_FALSE then state_false (.mk d kids) byte st
    else if d.valueint = STATE_NULL then state_null (.mk d kids) byte st
    else (.fail, .mk d kids, st)

/-- `cJSON_Put` of the source: allocate the root when absent, run `putbyte`,
delete everything and return `none` on failure, reset the scratch iterator and
set the completion flag on Done. -/
def cJSON_Put (item : Option JNode) (byte : Char) (st : List Char) :
    Ret × Option JNode × List Char :=
  match putbyte (item.getD zeroNode) byte st with
  | (.fail, _, _) => (.fail, none, [])
  | (.done, n', _) => (.done, some n', [])
  | (.cont, n', st') => (.cont, some n', st')

/-- Drive `cJSON_Put` over a byte list, collecting the per-byte signals and the
final node/scratch, always passing the returned node back (the spec's driver
contract). -/
def runAll (item : Option JNode) (st : List Char) :
    List Char → List Ret × Option JNode × List Char
  | [] => ([], item, st)
  | b :: bs =>
    match cJSON_Put item b st with
    | (r, item2, st2) =>
      match runAll item2 st2 bs with
      | (sigs, fin) => (r :: sigs, fin)

/-- Feed a byte list to one node via `putbyte`, requiring Continue at every
step; `none` if any step fails or completes early. -/
def feedSeq (n : JNode) (st : List Char) : List Char → Option (JNode × List Char)
  | [] => some (n, st)
  | b :: bs =>
    match putbyte n b st with
    | (.cont, n', st') => feedSeq n' st' bs
    | _ => none

/-- Feed a nonempty byte list to one node via `putbyte`, requiring Continue on
every byte but the last, and return the last byte's full result. -/
def feedFin (n : JNode) (st : List Char) : List Char → Option (Ret × JNode × List Char)
  | [] => none
  | b :: bs =>
    match bs with
    | [] => some (putbyte n b st)
    | _ :: _ =>
      match putbyte n b st with
      | (.cont, n2, st2) => feedFin n2 st2 bs
      | _ => none

/- Abstract JSON values, as the spec's "valid JSON value V": strings carry
their raw (still escaped) body bytes, numbers carry their literal bytes. -/
mutual
inductive JVal where
  | str (raw : List Char)
  | num (lit : List Char)
  | tru
  | fls
  | nul
  | arr (elems : JList)
  | obj (mems : JMembers)
inductive JList where
  | nil
  | cons (v : JVal) (rest : JList)
inductive JMembers where
  | nil
  | cons (key : List Char) (v : JVal) (rest : JMembers)
end

/- The canonical byte serialization of a JSON value (no inter-token
whitespace), together with the comma-separated member/element lists. -/
mutual
def ser : JVal → List Char
  | .str raw => '"' :: (raw ++ ['"'])
  | .num lit => lit
  | .tru => ['t', 'r', 'u', 'e']
  | .fls => ['f', 'a', 'l', 's', 'e']
  | .nul => ['n', 'u', 'l', 'l']
  | .arr es => '[' :: (serL es ++ [']'])
  | .obj ms => '{' :: (serM ms ++ ['}'])
def serL : JList → List Char
  | .nil => []
  | .cons v .nil => ser v
  | .cons v (.cons w rest) => ser v ++ ',' :: serL (.cons w rest)
def serM : JMembers → List Char
  | .nil => []
  | .cons k v .nil => '"' :: (k ++ '"' :: ':' :: ser v)
  | .cons k v (.cons k' w rest) =>
    ('"' :: (k ++ '"' :: ':' :: ser v)) ++ ',' :: serM (.cons k' w rest)
end

/-- The escape table of `state_special_char`: the byte after a backslash and
the literal byte it appends. -/
def escMap (c : Char) : Option Char :=
  if c = 'b' then some (Char.ofNat 8)
  else if c = 'f' then some (Char.ofNat 12)
  else if c = 'n' then some (Char.ofNat 10)
  else if c = 'r' then some (Char.ofNat 13)
  else if c = 't' then some (Char.ofNat 9)
  else if c = '"' ∨ c = '\\' ∨ c = '/' then some c
  else none

/-- Unescape a raw string body: `none` when the body is not well formed for
this parser (stray quote, NUL, trailing backslash, or an escape outside the
supported table -- including `u`). -/
def unesc : List Char → Option (List Char)
  | [] => some []
  | c :: rest =>
    if c = '\\' then
      match rest with
      | [] => none
      | e :: rest' =>
        match escMap e with
        | some ec => (unesc rest').map (fun l => ec :: l)
        | none => none
    else if c = '"' ∨ c.toNat = 0 then none
    else (unesc rest).map (fun l => c :: l)

/-- A raw string body the parser can accumulate: well-formed escapes and an
unescaped length within the 128-byte scratch buffer (max content 127). -/
def validStr (raw : List Char) : Bool :=
  match unesc raw with
  | some txt => txt.length ≤ 127
  | none => false

/-- The bytes `state_item` accepts as the start of a number literal. -/
def firstNumByte (c : Char) : Bool := c = '-' || isDigit c

/- Validity of a JSON value for this parser: string bodies well formed and
within scratch capacity, number literals made of the machine's number bytes
(starting with a digit or `-`) and within scratch capacity. -/
mutual
def validV : JVal → Bool
  | .str raw => validStr raw
  | .num lit =>
    (match lit with | [] => false | c :: _ => firstNumByte c)
      && lit.all numMember && lit.length ≤ 127
  | .tru => true
  | .fls => true
  | .nul => true
  | .arr es => validL es
  | .obj ms => validM ms
def validL : JList → Bool
  | .nil => true
  | .cons v rest => validV v && validL rest
def validM : JMembers → Bool
  | .nil => true
  | .cons k v rest => validStr k && validV v && validM rest
end

def isNumV : JVal → Bool
  | .num _ => true
  | _ => false

/- Structural isomorphism between a JSON value and a finished node tree:
same kinds, keys (for object members), payload values, and child order.
A number node's value is the exact rational `strtod` extracts from the
literal. -/
mutual
def reprV : JVal → JNode → Bool
  | .str raw, n =>
    n.data.type == CType.string && n.data.valuestring == unesc raw && n.kids.isEmpty
  | .num lit, n =>
    n.data.type == CType.number && n.data.valuedouble == strtodQ lit && n.kids.isEmpty
  | .tru, n => n.data.type == CType.ctrue && n.kids.isEmpty
  | .fls, n => n.data.type == CType.cfalse && n.kids.isEmpty
  | .nul, n => n.data.type == CType.cnull && n.kids.isEmpty
  | .arr es, n => n.data.type == CType.array && reprL es n.kids
  | .obj ms, n => n.data.type == CType.object && reprM ms n.kids
def reprL : JList → List JNode → Bool
  | .nil, cs => cs.isEmpty
  | .cons _ _, [] => false
  | .cons v rest, c :: cs => reprV v c && reprL rest cs
def reprM : JMembers → List JNode → Bool
  | .nil, cs => cs.isEmpty
  | .cons _ _ _, [] => false
  | .cons k v rest, c :: cs => c.data.string == unesc k && reprV v c && reprM rest cs
end

/-- The kind tag of the current (most recent) child of the returned node. -/
def headKidType (o : Option JNode) : Option CType :=
  o.bind fun n => n.kids.head?.map fun c => c.data.type

def rootType (o : Option JNode) : Option CType := o.map fun n => n.data.type

def rootKids (o : Option JNode) : Option (List JNode) := o.map fun n => n.kids

def rootValuestring (o : Option JNode) : Option (Option (List Char)) :=
  o.map fun n => n.data.valuestring

def rootValuedouble (o : Option JNode) : Option Rat :=
  o.map fun n => n.data.valuedouble

/-- The serialization of the remaining elements of an array after the first:
empty, or a comma followed by the rest. -/
def serLTail : JList → List Char
  | .nil => []
  | .cons v rest => ',' :: serL (.cons v rest)

/-- The serialization of the remaining members of an object after the first. -/
def serMTail : JMembers → List Char
  | .nil => []
  | .cons k v rest => ',' :: serM (.cons k v rest)

/-- The child node `state_object_key` allocates when it sees the opening quote
of a key (also what `state_item` turns a fresh sibling into on that quote):
typed String, in the String state. -/
def keyStartNode : JNode :=
  .mk { zeroData with type := .string, valueint := STATE_STRING } []

/-- The Parsed state a container in state `s` (ObjectValue or ArrayValue)
moves to when its current child completes. -/
def parsedOf (s : Int) : Int :=
  if s = STATE_ARRAY_VALUE then STATE_ARRAY_VALUE_PARSED else STATE_OBJECT_VALUE_PARSED

/-- The bytes `state_item` accepts as the first byte of a value. -/
def startByte (c : Char) : Bool :=
  c = '{' || c = '[' || c = '"' || c = 't' || c = 'f' || c = 'n' || firstNumByte c

/-- The spec's object/array scenario value from its testable properties. -/
def exampleV : JVal :=
  .obj (.cons ['a'] (.num ['1'])
    (.cons ['b'] (.arr (.cons .tru (.cons .fls (.cons .nul .nil)))) .nil))

/-! ### Dispatch lemmas: `putbyte` at each state is the matching handler -/

theorem putbyte_at_item (d : NodeData) (kids : List JNode) (byte : Char) (st : List Char)
    (h : d.valueint = STATE_ITEM) :
    putbyte (.mk d kids) byte st = state_item (.mk d kids) byte st := by
  rw [putbyte.eq_def]; simp [h]

theorem putbyte_at_object_key_nil (d : NodeData) (byte : Char) (st : List Char)
    (h : d.valueint = STATE_OBJECT_KEY) :
    putbyte (.mk d []) byte st =
      if is_whitespace byte then (.cont, .mk d [], st)
      else if byte = '}' then (.done, .mk d [], st)
      else if byte = '"' then
        (.cont, .mk d [.mk { zeroData with type := .string, valueint := STATE_STRING } []], st)
      else (.fail, .mk d [], st) := by
  rw [putbyte.eq_def]
  simp [h, STATE_ITEM, STATE_OBJECT_KEY]

theorem putbyte_at_object_key_cons (d : NodeData) (c : JNode) (rest : List JNode)
    (byte : Char) (st : List Char) (h : d.valueint = STATE_OBJECT_KEY) :
    putbyte (.mk d (c :: rest)) byte st =
      match putbyte c byte st with
      | (.done, c', st') =>
        (.cont, .mk { d with valueint := STATE_OBJECT_KEY_PARSED }
          (.mk { c'.data with
              string := c'.data.valuestring,
              valuestring := none,
              valueint := STATE_ITEM } c'.kids :: rest), st')
      | (r, c', st') => (r, .mk d (c' :: rest), st') := by
  rw [putbyte.eq_def]
  simp [h, STATE_ITEM, STATE_OBJECT_KEY]

theorem putbyte_at_object_key_parsed (d : NodeData) (kids : List JNode) (byte : Char)
    (st : List Char) (h : d.valueint = STATE_OBJECT_KEY_PARSED) :
    putbyte (.mk d kids) byte st = state_object_key_parsed (.mk d kids) byte st := by
  rw [putbyte.eq_def]
  simp [h, STATE_ITEM, STATE_OBJECT_KEY, STATE_OBJECT_KEY_PARSED]

theorem putbyte_at_value_nil (d : NodeData) (byte : Char) (st : List Char)
    (h : d.valueint = STATE_OBJECT_VALUE ∨ d.valueint = STATE_ARRAY_VALUE) :
    putbyte (.mk d []) byte st =
      if is_whitespace byte then (.cont, .mk d [], st)
      else if byte = ']' then (.done, .mk d [], st)
      else childDoneStep d [] (state_item zeroNode byte st) byte := by
  rw [putbyte.eq_def]
  rcases h with h | h <;>
    simp [h, STATE_ITEM, STATE_OBJECT_KEY, STATE_OBJECT_KEY_PARSED, STATE_OBJECT_VALUE,
      STATE_ARRAY_VALUE]

theorem putbyte_at_value_cons (d : NodeData) (c : JNode) (rest : List JNode)
    (byte : Char) (st : List Char)
    (h : d.valueint = STATE_OBJECT_VALUE ∨ d.valueint = STATE_ARRAY_VALUE) :
    putbyte (.mk d (c :: rest)) byte st =
      childDoneStep d rest (putbyte c byte st) byte := by
  rw [putbyte.eq_def]
  rcases h with h | h <;>
    simp [h, STATE_ITEM, STATE_OBJECT_KEY, STATE_OBJECT_KEY_PARSED, STATE_OBJECT_VALUE,
      STATE_ARRAY_VALUE]

theorem putbyte_at_value_parsed (d : NodeData) (kids : List JNode) (byte : Char)
    (st : List Char)
    (h : d.valueint = STATE_OBJECT_VALUE_PARSED ∨ d.valueint = STATE_ARRAY_VALUE_PARSED) :
    putbyte (.mk d kids) byte st =
      state_object_array_value_parsed (.mk d kids) byte st := by
  rw [putbyte.eq_def]
  rcases h with h | h <;>
    simp [h, STATE_ITEM, STATE_OBJECT_KEY, STATE_OBJECT_KEY_PARSED, STATE_OBJECT_VALUE,
      STATE_ARRAY_VALUE, STATE_OBJECT_VALUE_PARSED, STATE_ARRAY_VALUE_PARSED]

theorem putbyte_at_string (d : NodeData) (kids : List JNode) (byte : Char) (st : List Char)
    (h : d.valueint = STATE_STRING) :
    putbyte (.mk d kids) byte st = state_string (.mk d kids) byte st := by
  rw [putbyte.eq_def]
  simp [h, STATE_ITEM, STATE_OBJECT_KEY, STATE_OBJECT_KEY_PARSED, STATE_OBJECT_VALUE,
    STATE_ARRAY_VALUE, STATE_OBJECT_VALUE_PARSED, STATE_ARRAY_VALUE_PARSED, STATE_STRING]

theorem putbyte_at_special_char (d : NodeData) (kids : List JNode) (byte : Char)
    (st : List Char) (h : d.valueint = STATE_SPECIAL_CHAR) :
    putbyte (.mk d kids) byte st = state_special_char (.mk d kids) byte st := by
  rw [putbyte.eq_def]
  simp [h, STATE_ITEM, STATE_OBJECT_KEY, STATE_OBJECT_KEY_PARSED, STATE_OBJECT_VALUE,
    STATE_ARRAY_VALUE, STATE_OBJECT_VALUE_PARSED, STATE_ARRAY_VALUE_PARSED, STATE_STRING,
    STATE_SPECIAL_CHAR]

theorem putbyte_at_number (d : NodeData) (kids : List JNode) (byte : Char) (st : List Char)
    (h : d.valueint = STATE_NUMBER) :
    putbyte (.mk d kids) byte st = state_number (.mk d kids) byte st := by
  rw [putbyte.eq_def]
  simp [h, STATE_ITEM, STATE_OBJECT_KEY, STATE_OBJECT_KEY_PARSED, STATE_OBJECT_VALUE,
    STATE_ARRAY_VALUE, STATE_OBJECT_VALUE_PARSED, STATE_ARRAY_VALUE_PARSED, STATE_STRING,
    STATE_SPECIAL_CHAR, STATE_NUMBER]

theorem putbyte_at_true (d : NodeData) (kids : List JNode) (byte : Char) (st : List Char)
    (h : d.valueint = STATE_TRUE) :
    putbyte (.mk d kids) byte st = state_true (.mk d kids) byte st := by
  rw [putbyte.eq_def]
  simp [h, STATE_ITEM, STATE_OBJECT_KEY, STATE_OBJECT_KEY_PARSED, STATE_OBJECT_VALUE,
    STATE_ARRAY_VALUE, STATE_OBJECT_VALUE_PARSED, STATE_ARRAY_VALUE_PARSED, STATE_STRING,
    STATE_SPECIAL_CHAR, STATE_NUMBER, STATE_TRUE]

theorem putbyte_at_false (d : NodeData) (kids : List JNode) (byte : Char) (st : List Char)
    (h : d.valueint = STATE_FALSE) :
    putbyte (.mk d kids) byte st = state_false (.mk d kids) byte st := by
  rw [putbyte.eq_def]
  simp [h, STATE_ITEM, STATE_OBJECT_KEY, STATE_OBJECT_KEY_PARSED, STATE_OBJECT_VALUE,
    STATE_ARRAY_VALUE, STATE_OBJECT_VALUE_PARSED, STATE_ARRAY_VALUE_PARSED, STATE_STRING,
    STATE_SPECIAL_CHAR, STATE_NUMBER, STATE_TRUE, STATE_FALSE]

theorem putbyte_at_null (d : NodeData) (kids : List JNode) (byte : Char) (st : List Char)
    (h : d.valueint = STATE_NULL) :
    putbyte (.mk d kids) byte st = state_null (.mk d kids) byte st := by
  rw [putbyte.eq_def]
  simp [h, STATE_ITEM, STATE_OBJECT_KEY, STATE_OBJECT_KEY_PARSED, STATE_OBJECT_VALUE,
    STATE_ARRAY_VALUE, STATE_OBJECT_VALUE_PARSED, STATE_ARRAY_VALUE_PARSED, STATE_STRING,
    STATE_SPECIAL_CHAR, STATE_NUMBER, STATE_TRUE, STATE_FALSE, STATE_NULL]

set_option maxRecDepth 20000

/-! ### Small projection lemmas -/

@[simp] theorem JNode.data_mk (d : NodeData) (k : List JNode) : (JNode.mk d k).data = d := rfl

@[simp] theorem JNode.kids_mk (d : NodeData) (k : List JNode) : (JNode.mk d k).kids = k := rfl

theorem state_object_array_value_parsed_type (n : JNode) (byte : Char) (st : List Char) :
    ((state_object_array_value_parsed n byte st).2.1).data.type = n.data.type := by
  unfold state_object_array_value_parsed
  split_ifs <;> simp

theorem childDoneStep_type (d : NodeData) (rest : List JNode)
    (r : Ret × JNode × List Char) (byte : Char) :
    ((childDoneStep d rest r byte).2.1).data.type = d.type := by
  rcases r with ⟨r, c2, st2⟩
  cases r <;> simp only [childDoneStep] <;> try simp
  split_ifs <;> simp [state_object_array_value_parsed_type]

/-- C2: when the current child of a container completes on a byte, the parent
flips to the matching Parsed state; if and only if the child finished as a
Number is that same byte then fed again to the parent (now in the Parsed
state); for every other child kind the byte is consumed and the parent just
continues. -/
theorem c2_number_terminator_replay (d : NodeData) (c c' : JNode) (rest : List JNode)
    (byte : Char) (st st' : List Char)
    (hstate : d.valueint = STATE_OBJECT_VALUE ∨ d.valueint = STATE_ARRAY_VALUE)
    (hchild : putbyte c byte st = (.done, c', st')) :
    putbyte (.mk d (c :: rest)) byte st =
      (if c'.data.type = CType.number
       then putbyte (.mk { d with valueint := if d.valueint = STATE_ARRAY_VALUE
              then STATE_ARRAY_VALUE_PARSED else STATE_OBJECT_VALUE_PARSED }
            (c' :: rest)) byte st'
       else (.cont, .mk { d with valueint := if d.valueint = STATE_ARRAY_VALUE
              then STATE_ARRAY_VALUE_PARSED else STATE_OBJECT_VALUE_PARSED }
            (c' :: rest), st')) := by
  have hpp : ∀ (kids : List JNode) (stx : List Char),
      putbyte (.mk { d with valueint := if d.valueint = STATE_ARRAY_VALUE
          then STATE_ARRAY_VALUE_PARSED else STATE_OBJECT_VALUE_PARSED } kids) byte stx =
      state_object_array_value_parsed
        (.mk { d with valueint := if d.valueint = STATE_ARRAY_VALUE
          then STATE_ARRAY_VALUE_PARSED else STATE_OBJECT_VALUE_PARSED } kids) byte stx := by
    intro kids stx
    apply putbyte_at_value_parsed
    rcases hstate with h | h
    · left
      rw [h]
      simp [STATE_OBJECT_VALUE, STATE_ARRAY_VALUE, STATE_OBJECT_VALUE_PARSED]
    · right
      rw [h]
      simp
  rw [putbyte_at_value_cons d c rest byte st hstate, hchild, hpp]
  rfl

/-- C2 witness: a number child in an array completing on `]`: the result is
the replayed byte fed to the parent in its just-entered Parsed state, which
closes the array. -/
theorem c2_witness :
    putbyte (.mk { zeroData with valueint := STATE_ARRAY_VALUE, type := CType.array }
        [.mk { zeroData with valueint := STATE_NUMBER, type := CType.number } []])
      ']' ['1'] =
      putbyte (.mk { zeroData with valueint := STATE_ARRAY_VALUE_PARSED, type := CType.array }
          [.mk { zeroData with type := CType.number, valueint := 1, valuedouble := 1 } []])
        ']' [] := by
  have h := c2_number_terminator_replay
    { zeroData with valueint := STATE_ARRAY_VALUE, type := CType.array }
    (.mk { zeroData with valueint := STATE_NUMBER, type := CType.number } [])
    (.mk { zeroData with type := CType.number, valueint := 1, valuedouble := 1 } [])
    [] ']' ['1'] []
    (Or.inr rfl) (by rfl)
  rw [h]
  rfl

/-- C3 counterexample: feeding `[` then `]` from a fresh node DOES yield the
Complete signal on the second byte -- the claimed absence of the empty-array
check does not hold for `cJSON_Byte.c`, whose value state returns Done on `]`
before any child exists. -/
theorem c3_counterexample :
    (runAll none [] ['[', ']']).1 = [Ret.cont, Ret.done] := by decide

/-- C3 amended: in the ObjectValue/ArrayValue state with no child allocated
yet, a `]` byte IS specially handled and completes the container, so `[` `]`
completes as an empty array. -/
theorem c3_amended :
    (∀ (d : NodeData) (st : List Char),
      d.valueint = STATE_OBJECT_VALUE ∨ d.valueint = STATE_ARRAY_VALUE →
      putbyte (.mk d []) ']' st = (.done, .mk d [], st)) ∧
    (runAll none [] ['[', ']']).1 = [Ret.cont, Ret.done] ∧
    rootType (runAll none [] ['[', ']']).2.1 = some CType.array ∧
    (rootKids (runAll none [] ['[', ']']).2.1).map List.isEmpty = some true := by
  refine ⟨?_, by decide, by decide, by decide⟩
  intro d st h
  rw [putbyte_at_value_nil d ']' st h]
  have hws : is_whitespace ']' = false := by decide
  simp [hws]

/-- C3 amended witness: the general `]`-closes-empty-container clause at a
concrete array node. -/
theorem c3_amended_witness :
    putbyte (.mk { zeroData with valueint := STATE_ARRAY_VALUE, type := CType.array } [])
      ']' [] =
      (.done, .mk { zeroData with valueint := STATE_ARRAY_VALUE, type := CType.array } [], []) :=
  c3_amended.1 { zeroData with valueint := STATE_ARRAY_VALUE, type := CType.array } []
    (Or.inr rfl)

/-- C5: whenever `cJSON_Put` reports Fail, the returned node is absent
(`cJSON_Delete` has released the whole attempt and `NULL` is returned);
no partially built tree reaches the caller. -/
theorem c5_fail_returns_absent (item : Option JNode) (byte : Char) (st : List Char)
    (h : (cJSON_Put item byte st).1 = Ret.fail) :
    (cJSON_Put item byte st).2.1 = none := by
  unfold cJSON_Put at h ⊢
  rcases hp : putbyte (item.getD zeroNode) byte st with ⟨r, n2, st2⟩
  rw [hp] at h
  cases r
  · rfl
  · exact Ret.noConfusion h
  · exact Ret.noConfusion h

/-- C5 witness: the first byte `x` cannot start a value, `cJSON_Put` fails and
returns the absent node. -/
theorem c5_witness :
    (cJSON_Put none 'x' []).1 = Ret.fail ∧ (cJSON_Put none 'x' []).2.1 = none :=
  ⟨by decide, c5_fail_returns_absent none 'x' [] (by decide)⟩

/-- C7 counterexample: byte `0xFF` is above `0x20` yet `is_whitespace` accepts
it (signed `char` comparison), and the machine skips it as whitespace between
`{` and `}`. -/
theorem c7_counterexample :
    0x20 < (Char.ofNat 0xFF).toNat ∧ is_whitespace (Char.ofNat 0xFF) = true ∧
    (runAll none [] ['{', Char.ofNat 0xFF, '}']).1 = [Ret.cont, Ret.cont, Ret.done] := by
  decide

/-- C7 amended: a byte is treated as whitespace iff its value as a signed
`char` is at most `0x20`, i.e. iff its unsigned value is at most `0x20` or at
least `0x80`; bytes `0x21`-`0x7F` are never whitespace. -/
theorem c7_amended (c : Char) (h : c.toNat < 256) :
    is_whitespace c = true ↔ (c.toNat ≤ 0x20 ∨ 0x80 ≤ c.toNat) := by
  unfold is_whitespace csign
  by_cases h1 : c.toNat < 128
  all_goals simp [h1]
  all_goals omega

/-- C7 amended witness: space is whitespace, `!` (0x21) is not, 0xFF is. -/
theorem c7_amended_witness :
    (is_whitespace ' ' = true ↔ (' '.toNat ≤ 0x20 ∨ 0x80 ≤ ' '.toNat)) ∧
    (is_whitespace '!' = true ↔ ('!'.toNat ≤ 0x20 ∨ 0x80 ≤ '!'.toNat)) ∧
    (is_whitespace (Char.ofNat 0xFF) = true ↔
      ((Char.ofNat 0xFF).toNat ≤ 0x20 ∨ 0x80 ≤ (Char.ofNat 0xFF).toNat)) :=
  ⟨c7_amended ' ' (by decide), c7_amended '!' (by decide),
    c7_amended (Char.ofNat 0xFF) (by decide)⟩

/-! ### Type-preservation helpers (for C4) -/

theorem string_append_type (n : JNode) (byte : Char) (st : List Char) :
    ((string_append n byte st).2.1).data.type = n.data.type := by
  unfold string_append
  split_ifs <;> simp

theorem state_string_type (n : JNode) (byte : Char) (st : List Char) :
    ((state_string n byte st).2.1).data.type = n.data.type := by
  unfold state_string
  split_ifs <;> simp [string_append_type]

theorem state_special_char_type (n : JNode) (byte : Char) (st : List Char) :
    ((state_special_char n byte st).2.1).data.type = n.data.type := by
  unfold state_special_char
  split_ifs <;> simp [string_append_type]

theorem state_object_key_parsed_type (n : JNode) (byte : Char) (st : List Char) :
    ((state_object_key_parsed n byte st).2.1).data.type = n.data.type := by
  unfold state_object_key_parsed
  split_ifs <;> simp

theorem state_number_type (n : JNode) (byte : Char) (st : List Char) :
    ((state_number n byte st).2.1).data.type = n.data.type := by
  unfold state_number
  split_ifs <;> simp

theorem state_true_type (n : JNode) (byte : Char) (st : List Char) :
    ((state_true n byte st).2.1).data.type = n.data.type := by
  simp only [state_true]
  split_ifs <;> simp

theorem state_false_type (n : JNode) (byte : Char) (st : List Char) :
    ((state_false n byte st).2.1).data.type = n.data.type := by
  simp only [state_false]
  split_ifs <;> simp

theorem state_null_type (n : JNode) (byte : Char) (st : List Char) :
    ((state_null n byte st).2.1).data.type = n.data.type := by
  simp only [state_null]
  split_ifs <;> simp

set_option maxHeartbeats 1000000

theorem putbyte_object_key_type (d : NodeData) (kids : List JNode) (byte : Char)
    (st : List Char) (h : d.valueint = STATE_OBJECT_KEY) :
    ((putbyte (.mk d kids) byte st).2.1).data.type = d.type := by
  cases kids with
  | nil =>
    rw [putbyte_at_object_key_nil d byte st h]
    split_ifs <;> simp
  | cons c rest =>
    rw [putbyte_at_object_key_cons d c rest byte st h]
    rcases hpc : putbyte c byte st with ⟨r, c2, st2⟩
    cases r <;> simp

theorem putbyte_value_type (d : NodeData) (kids : List JNode) (byte : Char)
    (st : List Char)
    (h : d.valueint = STATE_OBJECT_VALUE ∨ d.valueint = STATE_ARRAY_VALUE) :
    ((putbyte (.mk d kids) byte st).2.1).data.type = d.type := by
  cases kids with
  | nil =>
    rw [putbyte_at_value_nil d byte st h]
    split_ifs
    · simp
    · simp
    · exact childDoneStep_type _ _ _ _
  | cons c rest =>
    rw [putbyte_at_value_cons d c rest byte st h]
    exact childDoneStep_type _ _ _ _

/-- C4 counterexample: the node created for an object member is typed String
while its key is parsed (here after `{"a"`), and the same node is re-typed on
the first byte of the member value (Number after `{"a":1`) -- so for members
of an object the kind is not assigned exactly once. -/
theorem c4_counterexample :
    headKidType (runAll none [] ['{', '"', 'a', '"']).2.1 = some CType.string ∧
    headKidType (runAll none [] ['{', '"', 'a', '"', ':', '1']).2.1 = some CType.number := by
  decide

/-- C4 amended: `putbyte` changes the type of the node it is applied to only
when that node is in the Item state (where the first disambiguating byte sets
it).  Since an object member node is created already typed String for its key
and is put back into the Item state once the key is parsed, its type is
written a second time on the first byte of its value; every node that enters
the Item state only once has its kind set exactly once. -/
theorem c4_amended (n : JNode) (byte : Char) (st : List Char)
    (h : n.data.valueint ≠ STATE_ITEM) :
    ((putbyte n byte st).2.1).data.type = n.data.type := by
  obtain ⟨d, kids⟩ := n
  simp only [JNode.data_mk] at h ⊢
  by_cases h1 : d.valueint = STATE_OBJECT_KEY
  · exact putbyte_object_key_type d kids byte st h1
  by_cases h2 : d.valueint = STATE_OBJECT_KEY_PARSED
  · rw [putbyte_at_object_key_parsed d kids byte st h2]
    exact state_object_key_parsed_type _ _ _
  by_cases h3 : d.valueint = STATE_OBJECT_VALUE ∨ d.valueint = STATE_ARRAY_VALUE
  · exact putbyte_value_type d kids byte st h3
  by_cases h4 : d.valueint = STATE_OBJECT_VALUE_PARSED ∨ d.valueint = STATE_ARRAY_VALUE_PARSED
  · rw [putbyte_at_value_parsed d kids byte st h4]
    exact state_object_array_value_parsed_type _ _ _
  by_cases h5 : d.valueint = STATE_STRING
  · rw [putbyte_at_string d kids byte st h5]
    exact state_string_type _ _ _
  by_cases h6 : d.valueint = STATE_SPECIAL_CHAR
  · rw [putbyte_at_special_char d kids byte st h6]
    exact state_special_char_type _ _ _
  by_cases h7 : d.valueint = STATE_NUMBER
  · rw [putbyte_at_number d kids byte st h7]
    exact state_number_type _ _ _
  by_cases h8 : d.valueint = STATE_TRUE
  · rw [putbyte_at_true d kids byte st h8]
    exact state_true_type _ _ _
  by_cases h9 : d.valueint = STATE_FALSE
  · rw [putbyte_at_false d kids byte st h9]
    exact state_false_type _ _ _
  by_cases h10 : d.valueint = STATE_NULL
  · rw [putbyte_at_null d kids byte st h10]
    exact state_null_type _ _ _
  rw [putbyte.eq_def]
  simp only [if_neg h, if_neg h1, if_neg h2, if_neg h3, if_neg h4, if_neg h5, if_neg h6,
    if_neg h7, if_neg h8, if_neg h9, if_neg h10]
  simp

/-- C4 amended witness: a node in the String state keeps its String type on
the next byte. -/
theorem c4_amended_witness :
    ((putbyte (.mk { zeroData with valueint := STATE_STRING, type := CType.string } []) 'a' []).2.1).data.type
      = CType.string :=
  c4_amended (.mk { zeroData with valueint := STATE_STRING, type := CType.string } []) 'a' []
    (by decide)

/-- C6 counterexample: feeding the five bytes of `1.2.3` never returns Fail --
every byte is in the number state's accepted character set, so each call
returns Continue. -/
theorem c6_counterexample :
    (runAll none [] ['1', '.', '2', '.', '3']).1 = List.replicate 5 Ret.cont ∧
    Ret.fail ∉ (runAll none [] ['1', '.', '2', '.', '3']).1 := by decide

/-- C6 amended: `1.2.3` is accepted byte for byte with Continue (the machine
checks only the character set, not number syntax); followed by a delimiter it
completes with value 1.2, the longest valid prefix `strtod` reads.  `-0`,
`1e10`, `1.5E-3` and `0` followed by a delimiter complete with exact values
0, 10^10, 3/2000 and 0 (the C `double` holds their binary64 rounding). -/
theorem c6_amended :
    (runAll none [] ['1', '.', '2', '.', '3']).1 = List.replicate 5 Ret.cont ∧
    (runAll none [] ['1', '.', '2', '.', '3', ' ']).1 =
      List.replicate 5 Ret.cont ++ [Ret.done] ∧
    rootValuedouble (runAll none [] ['1', '.', '2', '.', '3', ' ']).2.1 =
      some (mkRat 6 5) ∧
    (runAll none [] ['-', '0', ' ']).1 = [Ret.cont, Ret.cont, Ret.done] ∧
    rootValuedouble (runAll none [] ['-', '0', ' ']).2.1 = some 0 ∧
    (runAll none [] ['1', 'e', '1', '0', ' ']).1 =
      List.replicate 4 Ret.cont ++ [Ret.done] ∧
    rootValuedouble (runAll none [] ['1', 'e', '1', '0', ' ']).2.1 =
      some (mkRat 10000000000 1) ∧
    (runAll none [] ['1', '.', '5', 'E', '-', '3', ' ']).1 =
      List.replicate 6 Ret.cont ++ [Ret.done] ∧
    rootValuedouble (runAll none [] ['1', '.', '5', 'E', '-', '3', ' ']).2.1 =
      some (mkRat 3 2000) ∧
    (runAll none [] ['0', ' ']).1 = [Ret.cont, Ret.done] ∧
    rootValuedouble (runAll none [] ['0', ' ']).2.1 = some 0 := by decide

/-- C8: in each keyword state every byte is appended and yields Continue while
the scratch holds fewer bytes than the keyword; the byte that brings the
scratch to the keyword's length (4 for `true`, 5 for `false`, 4 for `null`)
triggers an exact comparison -- Complete on match, Fail on mismatch -- so a
wrong byte is reported only at the keyword-length byte, never earlier. -/
theorem c8_keyword_accumulate_compare (n : JNode) (byte : Char) (st : List Char) :
    ((st ++ [byte]).length < 4 → state_true n byte st = (.cont, n, st ++ [byte])) ∧
    ((st ++ [byte]).length = 4 →
      state_true n byte st =
        if st ++ [byte] = ['t', 'r', 'u', 'e'] then (.done, n, [])
        else (.fail, n, st ++ [byte])) ∧
    ((st ++ [byte]).length < 5 → state_false n byte st = (.cont, n, st ++ [byte])) ∧
    ((st ++ [byte]).length = 5 →
      state_false n byte st =
        if st ++ [byte] = ['f', 'a', 'l', 's', 'e'] then (.done, n, [])
        else (.fail, n, st ++ [byte])) ∧
    ((st ++ [byte]).length < 4 → state_null n byte st = (.cont, n, st ++ [byte])) ∧
    ((st ++ [byte]).length = 4 →
      state_null n byte st =
        if st ++ [byte] = ['n', 'u', 'l', 'l'] then (.done, n, [])
        else (.fail, n, st ++ [byte])) := by
  have htake : ∀ (k : Nat), (st ++ [byte]).length = k → (st ++ [byte]).take k = st ++ [byte] := by
    intro k hk
    rw [← hk]
    exact List.take_length _
  refine ⟨?_, ?_, ?_, ?_, ?_, ?_⟩
  · intro hlen
    simp only [state_true]
    rw [if_pos hlen]
  · intro hlen
    simp only [state_true]
    rw [if_neg (by omega), htake 4 hlen]
  · intro hlen
    simp only [state_false]
    rw [if_pos hlen]
  · intro hlen
    simp only [state_false]
    rw [if_neg (by omega), htake 5 hlen]
  · intro hlen
    simp only [state_null]
    rw [if_pos hlen]
  · intro hlen
    simp only [state_null]
    rw [if_neg (by omega), htake 4 hlen]

/-- C8 witness: in the True state, `r` after `t` continues; `e` after `tru`
completes; `x` after `tru` fails -- and never before the fourth byte. -/
theorem c8_witness :
    state_true zeroNode 'r' ['t'] = (.cont, zeroNode, ['t', 'r']) ∧
    state_true zeroNode 'e' ['t', 'r', 'u'] = (.done, zeroNode, []) ∧
    state_true zeroNode 'x' ['t', 'r', 'u'] = (.fail, zeroNode, ['t', 'r', 'u', 'x']) := by
  refine ⟨(c8_keyword_accumulate_compare zeroNode 'r' ['t']).1 (by decide), ?_, ?_⟩
  · rw [(c8_keyword_accumulate_compare zeroNode 'e' ['t', 'r', 'u']).2.1 (by decide)]
    rfl
  · rw [(c8_keyword_accumulate_compare zeroNode 'x' ['t', 'r', 'u']).2.1 (by decide)]
    rfl

/-- C9 counterexample: with the 128-byte scratch already full, the escape
`\n` does NOT append its literal byte -- the append's failure is discarded,
the scratch is unchanged and the machine still answers Continue (input:
a quote, 128 content bytes, backslash, `n`). -/
theorem c9_counterexample :
    (runAll none [] ('"' :: (List.replicate 128 'a' ++ ['\\', 'n']))).1 =
      List.replicate 131 Ret.cont ∧
    (runAll none [] ('"' :: (List.replicate 128 'a' ++ ['\\', 'n']))).2.2 =
      List.replicate 128 'a' := by decide

theorem state_special_char_some (n : JNode) (byte : Char) (st : List Char)
    (e : Char) (he : escMap byte = some e) :
    state_special_char n byte st =
      (.cont, .mk { n.data with valueint := STATE_STRING } n.kids,
        if 128 ≤ st.length then st else st ++ [e]) := by
by_cases hb : byte = 'b'
· simp [escMap, hb] at he
  simp [state_special_char, hb, string_append, ← he]
  split_ifs <;> simp
· by_cases hf : byte = 'f'
  · simp [escMap, hb, hf] at he
    simp [state_special_char, hb, hf, string_append, ← he]
    split_ifs <;> simp
  · by_cases hn : byte = 'n'
    · simp [escMap, hb, hf, hn] at he
      simp [state_special_char, hb, hf, hn, string_append, ← he]
      split_ifs <;> simp
    · by_cases hr : byte = 'r'
      · simp [escMap, hb, hf, hn, hr] at he
        simp [state_special_char, hb, hf, hn, hr, string_append, ← he]
        split_ifs <;> simp
      · by_cases ht : byte = 't'
        · simp [escMap, hb, hf, hn, hr, ht] at he
          simp [state_special_char, hb, hf, hn, hr, ht, string_append, ← he]
          split_ifs <;> simp
        · by_cases hq : byte = '"' ∨ byte = '\\' ∨ byte = '/'
          · rcases hq with rfl | rfl | rfl <;>
            · simp [escMap] at he
              simp [state_special_char, string_append, ← he]
              split_ifs <;> simp
          · simp [escMap, hb, hf, hn, hr, ht, hq] at he

theorem state_special_char_none (n : JNode) (byte : Char) (st : List Char)
    (he : escMap byte = none) :
    state_special_char n byte st = (.fail, n, st) := by
have hb : byte ≠ 'b' := by rintro rfl; simp [escMap] at he
have hf : byte ≠ 'f' := by rintro rfl; simp [escMap] at he
have hn : byte ≠ 'n' := by rintro rfl; simp [escMap] at he
have hr : byte ≠ 'r' := by rintro rfl; simp [escMap] at he
have ht : byte ≠ 't' := by rintro rfl; simp [escMap] at he
have hq : ¬(byte = '"' ∨ byte = '\\' ∨ byte = '/') := by
  rintro (rfl | rfl | rfl) <;> simp [escMap] at he
simp [state_special_char, hb, hf, hn, hr, ht, hq]

/-- C9 amended: in the Escape state, each of `b f n r t " \ /` returns to the
String state with Continue and appends the corresponding literal byte when the
128-byte scratch has room (when it is full, the append is silently skipped);
`u` and every other byte Fail, so any `A` sequence fails. -/
theorem c9_escape_table (n : JNode) (byte : Char) (st : List Char) :
    (∀ e, escMap byte = some e →
      state_special_char n byte st =
        (.cont, .mk { n.data with valueint := STATE_STRING } n.kids,
          if 128 ≤ st.length then st else st ++ [e])) ∧
    (escMap byte = none → state_special_char n byte st = (.fail, n, st)) ∧
    (runAll none [] ['"', '\\', 'u']).1 = [Ret.cont, Ret.cont, Ret.fail] ∧
    ((runAll none [] ['"', '\\', 'u']).2.1).isNone = true :=
  ⟨fun e he => state_special_char_some n byte st e he,
   fun he => state_special_char_none n byte st he, by decide, by decide⟩

/-- C9 witness: `\n` with room appends a newline byte and continues; `\n`
with a full scratch continues without appending; `\u` fails. -/
theorem c9_witness :
    state_special_char zeroNode 'n' [] =
      (.cont, .mk { zeroData with valueint := STATE_STRING } [], [Char.ofNat 10]) ∧
    state_special_char zeroNode 'n' (List.replicate 128 'a') =
      (.cont, .mk { zeroData with valueint := STATE_STRING } [], List.replicate 128 'a') ∧
    state_special_char zeroNode 'u' [] = (.fail, zeroNode, []) := by
  refine ⟨?_, ?_, ?_⟩
  · rw [(c9_escape_table zeroNode 'n' []).1 (Char.ofNat 10) (by decide)]
    rfl
  · rw [(c9_escape_table zeroNode 'n' (List.replicate 128 'a')).1 (Char.ofNat 10) (by decide)]
    rfl
  · exact (c9_escape_table zeroNode 'u' []).2.1 (by decide)

/-- C10: in the String state the append result is discarded -- every
non-quote, non-backslash content byte yields Continue even with a full
scratch; an over-long string (200 content bytes) continues on every content
byte, completes on the closing quote, keeps only the first 128 bytes in the
scratch (the rest are silently dropped) and finishes with `valuestring`
unset. -/
theorem c10_string_overflow :
    (∀ (n : JNode) (byte : Char) (st : List Char),
      byte ≠ '"' → byte ≠ '\\' → (state_string n byte st).1 = Ret.cont) ∧
    (∀ (d : NodeData) (kids : List JNode) (byte : Char) (st : List Char),
      d.valueint = STATE_STRING → byte ≠ '"' → byte ≠ '\\' →
      (putbyte (.mk d kids) byte st).1 = Ret.cont) ∧
    (runAll none [] ('"' :: List.replicate 200 'a')).2.2 = List.replicate 128 'a' ∧
    (runAll none [] ('"' :: (List.replicate 200 'a' ++ ['"']))).1 =
      List.replicate 201 Ret.cont ++ [Ret.done] ∧
    rootValuestring (runAll none [] ('"' :: (List.replicate 200 'a' ++ ['"']))).2.1 =
      some none := by
  have h1 : ∀ (n : JNode) (byte : Char) (st : List Char),
      byte ≠ '"' → byte ≠ '\\' → (state_string n byte st).1 = Ret.cont := by
    intro n byte st hq hb
    simp [state_string, hq, hb]
  refine ⟨h1, ?_, by decide, by decide, by decide⟩
  intro d kids byte st hs hq hb
  rw [putbyte_at_string d kids byte st hs]
  exact h1 _ _ _ hq hb

/-- C10 witness: a content byte on a full scratch still yields Continue. -/
theorem c10_witness :
    (state_string zeroNode 'x' (List.replicate 128 'a')).1 = Ret.cont ∧
    (putbyte (.mk { zeroData with valueint := STATE_STRING, type := CType.string } [])
      'x' (List.replicate 128 'a')).1 = Ret.cont :=
  ⟨c10_string_overflow.1 zeroNode 'x' (List.replicate 128 'a') (by decide) (by decide),
   c10_string_overflow.2.1 { zeroData with valueint := STATE_STRING, type := CType.string }
     [] 'x' (List.replicate 128 'a') rfl (by decide) (by decide)⟩

/-! ### Feed-sequence plumbing (for C1) -/

theorem setValueint_self (d : NodeData) (s : Int) (h : d.valueint = s) :
    ({ d with valueint := s } : NodeData) = d := by
  obtain ⟨t, vi, vs, str, vd⟩ := d
  simp_all

theorem feedSeq_append (n : JNode) (st : List Char) (xs ys : List Char) :
    feedSeq n st (xs ++ ys) =
      (feedSeq n st xs).bind fun p => feedSeq p.1 p.2 ys := by
  induction xs generalizing n st with
  | nil => simp [feedSeq]
  | cons x xs ih =>
    rw [List.cons_append]
    simp only [feedSeq]
    rcases putbyte n x st with ⟨r, n2, st2⟩
    cases r <;> simp [ih]

theorem feedFin_append (n : JNode) (st : List Char) (xs ys : List Char) (hys : ys ≠ []) :
    feedFin n st (xs ++ ys) =
      (feedSeq n st xs).bind fun p => feedFin p.1 p.2 ys := by
  induction xs generalizing n st with
  | nil => simp [feedSeq]
  | cons x xs ih =>
    rw [List.cons_append]
    simp only [feedFin]
    have hne : xs ++ ys ≠ [] := by
      simp [hys]
    rcases hxy : xs ++ ys with _ | ⟨z, zs⟩
    · exact absurd hxy hne
    · simp only [feedSeq]
      rcases putbyte n x st with ⟨r, n2, st2⟩
      cases r <;> simp [← hxy, ih]

theorem feedFin_congr_head (n1 n2 : JNode) (st : List Char) (b : Char) (bs : List Char)
    (h : putbyte n1 b st = putbyte n2 b st) :
    feedFin n1 st (b :: bs) = feedFin n2 st (b :: bs) := by
  cases bs <;> simp only [feedFin, h]

theorem feedSeq_take (n : JNode) (st : List Char) (bs : List Char) (p : JNode × List Char)
    (h : feedSeq n st bs = some p) (k : Nat) :
    (feedSeq n st (bs.take k)).isSome := by
  induction bs generalizing n st k with
  | nil => simp [feedSeq]
  | cons b bs ih =>
    cases k with
    | zero => simp [feedSeq]
    | succ k =>
      simp only [List.take_succ_cons, feedSeq] at h ⊢
      rcases hp : putbyte n b st with ⟨r, n2, st2⟩
      rw [hp] at h
      cases r
      · simp at h
      · exact ih n2 st2 h k
      · simp at h

theorem feedFin_take (n : JNode) (st : List Char) (bs : List Char)
    (r : Ret × JNode × List Char) (h : feedFin n st bs = some r) (k : Nat)
    (hk : k < bs.length) :
    (feedSeq n st (bs.take k)).isSome := by
  induction bs generalizing n st k with
  | nil => simp [feedFin] at h
  | cons b bs ih =>
    cases k with
    | zero => simp [feedSeq]
    | succ k =>
      have hk2 : k < bs.length := by
        simp only [List.length_cons] at hk
        omega
      cases bs with
      | nil => simp at hk2
      | cons z zs =>
        simp only [feedFin] at h
        simp only [List.take_succ_cons, feedSeq]
        rcases hp : putbyte n b st with ⟨r2, n2, st2⟩
        rw [hp] at h
        cases r2
        · simp at h
        · simp only []
          exact ih n2 st2 h k hk2
        · simp at h

/-! ### Bridging node-level feeds to the `cJSON_Put` driver (for C1) -/

theorem runAll_none_eq_some_zero (st : List Char) (bs : List Char) (h : bs ≠ []) :
    runAll none st bs = runAll (some zeroNode) st bs := by
  cases bs with
  | nil => exact absurd rfl h
  | cons b bs => rfl

theorem runAll_cons (item : Option JNode) (st : List Char) (b : Char) (bs : List Char) :
    runAll item st (b :: bs) =
      ((cJSON_Put item b st).1 ::
          (runAll (cJSON_Put item b st).2.1 (cJSON_Put item b st).2.2 bs).1,
        (runAll (cJSON_Put item b st).2.1 (cJSON_Put item b st).2.2 bs).2) := by
  simp only [runAll]

theorem cJSON_Put_cont (item : Option JNode) (b : Char) (st : List Char)
    (m : JNode) (stm : List Char)
    (h : putbyte (item.getD zeroNode) b st = (.cont, m, stm)) :
    cJSON_Put item b st = (.cont, some m, stm) := by
  simp only [cJSON_Put, h]

theorem cJSON_Put_done (item : Option JNode) (b : Char) (st : List Char)
    (m : JNode) (stm : List Char)
    (h : putbyte (item.getD zeroNode) b st = (.done, m, stm)) :
    cJSON_Put item b st = (.done, some m, []) := by
  simp only [cJSON_Put, h]

theorem runAll_of_feedSeq (n : JNode) (st : List Char) (bs : List Char)
    (n2 : JNode) (st2 : List Char) (h : feedSeq n st bs = some (n2, st2)) :
    runAll (some n) st bs = (List.replicate bs.length Ret.cont, some n2, st2) := by
  induction bs generalizing n st with
  | nil =>
    simp [feedSeq] at h
    simp [runAll, h]
  | cons b bs ih =>
    simp only [feedSeq] at h
    rcases hp : putbyte n b st with ⟨r, m, stm⟩
    rw [hp] at h
    cases r
    · simp at h
    · rw [runAll_cons, cJSON_Put_cont (some n) b st m stm hp]
      rw [ih m stm h]
      simp [List.replicate_succ]
    · simp at h

theorem runAll_of_feedFin (n : JNode) (st : List Char) (bs : List Char)
    (n2 : JNode) (st2 : List Char) (h : feedFin n st bs = some (.done, n2, st2)) :
    runAll (some n) st bs =
      (List.replicate (bs.length - 1) Ret.cont ++ [Ret.done], some n2, []) := by
  induction bs generalizing n st with
  | nil => simp [feedFin] at h
  | cons b bs ih =>
    cases bs with
    | nil =>
      simp only [feedFin, Option.some_inj] at h
      rw [runAll_cons, cJSON_Put_done (some n) b st n2 st2 h]
      simp [runAll]
    | cons z zs =>
      simp only [feedFin] at h
      rcases hp : putbyte n b st with ⟨r, m, stm⟩
      rw [hp] at h
      cases r
      · simp at h
      · rw [runAll_cons, cJSON_Put_cont (some n) b st m stm hp]
        rw [ih m stm h]
        simp only [List.length_cons]
        have h1 : zs.length + 1 + 1 - 1 = (zs.length + 1 - 1) + 1 := by omega
        rw [h1, List.replicate_succ]
        simp
      · simp at h

/-! ### Byte-class facts (for C1) -/

theorem firstNumByte_toNat (c : Char) (h : firstNumByte c = true) :
    c.toNat = 45 ∨ (48 ≤ c.toNat ∧ c.toNat ≤ 57) := by
  simp [firstNumByte, isDigit] at h
  rcases h with h | h
  · left
    subst h
    decide
  · right
    exact h

theorem firstNumByte_ne (c : Char) (h : firstNumByte c = true) :
    c ≠ '{' ∧ c ≠ '[' ∧ c ≠ '"' ∧ c ≠ 't' ∧ c ≠ 'f' ∧ c ≠ 'n' := by
  have hn := firstNumByte_toNat c h
  refine ⟨?_, ?_, ?_, ?_, ?_, ?_⟩ <;>
    · rintro rfl
      rcases hn with hn | hn <;> simp_all

theorem startByte_cases (c : Char) (h : startByte c = true) :
    c = '{' ∨ c = '[' ∨ c = '"' ∨ c = 't' ∨ c = 'f' ∨ c = 'n' ∨ firstNumByte c = true := by
  simp only [startByte, Bool.or_eq_true, decide_eq_true_eq] at h
  tauto

theorem startByte_toNat (c : Char) (h : startByte c = true) :
    33 ≤ c.toNat ∧ c.toNat ≤ 123 := by
  rcases startByte_cases c h with rfl | rfl | rfl | rfl | rfl | rfl | hc
  · decide
  · decide
  · decide
  · decide
  · decide
  · decide
  · rcases firstNumByte_toNat c hc with hn | hn <;> omega

theorem startByte_not_ws (c : Char) (h : startByte c = true) :
    is_whitespace c = false := by
  have hb := startByte_toNat c h
  have hcs : csign c = (c.toNat : Int) := by
    unfold csign
    rw [if_pos (show c.toNat < 128 by omega)]
  simp only [is_whitespace, hcs, decide_eq_false_iff_not]
  omega

theorem startByte_ne_rbracket (c : Char) (h : startByte c = true) : c ≠ ']' := by
  rintro rfl
  rcases startByte_cases ']' h with h1 | h1 | h1 | h1 | h1 | h1 | h1 <;>
    exact absurd h1 (by decide)

/-! ### Single-step and sequence lift lemmas (for C1) -/

theorem lift_key_cont (d : NodeData) (c c2 : JNode) (rest : List JNode) (byte : Char)
    (st st2 : List Char) (hd : d.valueint = STATE_OBJECT_KEY)
    (h : putbyte c byte st = (.cont, c2, st2)) :
    putbyte (.mk d (c :: rest)) byte st = (.cont, .mk d (c2 :: rest), st2) := by
  rw [putbyte_at_object_key_cons d c rest byte st hd, h]

theorem lift_key_done (d : NodeData) (c c2 : JNode) (rest : List JNode) (byte : Char)
    (st st2 : List Char) (hd : d.valueint = STATE_OBJECT_KEY)
    (h : putbyte c byte st = (.done, c2, st2)) :
    putbyte (.mk d (c :: rest)) byte st =
      (.cont, .mk { d with valueint := STATE_OBJECT_KEY_PARSED }
        (.mk { c2.data with
            string := c2.data.valuestring,
            valuestring := none,
            valueint := STATE_ITEM } c2.kids :: rest), st2) := by
  rw [putbyte_at_object_key_cons d c rest byte st hd, h]

theorem lift_val_cont (d : NodeData) (c c2 : JNode) (rest : List JNode) (byte : Char)
    (st st2 : List Char)
    (hd : d.valueint = STATE_OBJECT_VALUE ∨ d.valueint = STATE_ARRAY_VALUE)
    (h : putbyte c byte st = (.cont, c2, st2)) :
    putbyte (.mk d (c :: rest)) byte st = (.cont, .mk d (c2 :: rest), st2) := by
  rw [putbyte_at_value_cons d c rest byte st hd, h]
  rfl

theorem lift_key_feedSeq (d : NodeData) (rest : List JNode) (bs : List Char)
    (c c2 : JNode) (st st2 : List Char) (hd : d.valueint = STATE_OBJECT_KEY)
    (h : feedSeq c st bs = some (c2, st2)) :
    feedSeq (.mk d (c :: rest)) st bs = some (.mk d (c2 :: rest), st2) := by
  induction bs generalizing c st with
  | nil =>
    simp only [feedSeq, Option.some_inj] at h ⊢
    cases h
    rfl
  | cons b bs ih =>
    simp only [feedSeq] at h ⊢
    rcases hp : putbyte c b st with ⟨r, m, stm⟩
    rw [hp] at h
    cases r
    · simp at h
    · rw [lift_key_cont d c m rest b st stm hd hp]
      exact ih m stm h
    · simp at h

theorem lift_val_feedSeq (d : NodeData) (rest : List JNode) (bs : List Char)
    (c c2 : JNode) (st st2 : List Char)
    (hd : d.valueint = STATE_OBJECT_VALUE ∨ d.valueint = STATE_ARRAY_VALUE)
    (h : feedSeq c st bs = some (c2, st2)) :
    feedSeq (.mk d (c :: rest)) st bs = some (.mk d (c2 :: rest), st2) := by
  induction bs generalizing c st with
  | nil =>
    simp only [feedSeq, Option.some_inj] at h ⊢
    cases h
    rfl
  | cons b bs ih =>
    simp only [feedSeq] at h ⊢
    rcases hp : putbyte c b st with ⟨r, m, stm⟩
    rw [hp] at h
    cases r
    · simp at h
    · rw [lift_val_cont d c m rest b st stm hd hp]
      exact ih m stm h
    · simp at h

theorem lift_val_feedFin (d : NodeData) (rest : List JNode) (bs : List Char)
    (c c2 : JNode) (st st2 : List Char)
    (hd : d.valueint = STATE_OBJECT_VALUE ∨ d.valueint = STATE_ARRAY_VALUE)
    (h : feedFin c st bs = some (.done, c2, st2))
    (htype : ¬c2.data.type = CType.number) :
    feedSeq (.mk d (c :: rest)) st bs =
      some (.mk { d with valueint := parsedOf d.valueint } (c2 :: rest), st2) := by
  induction bs generalizing c st with
  | nil => simp [feedFin] at h
  | cons b bs ih =>
    cases bs with
    | nil =>
      simp only [feedFin, Option.some_inj] at h
      simp only [feedSeq]
      rw [putbyte_at_value_cons d c rest b st hd, h]
      simp only [childDoneStep]
      rw [if_neg htype]
      simp only [feedSeq, parsedOf]
    | cons z zs =>
      simp only [feedFin] at h
      rcases hp : putbyte c b st with ⟨r, m, stm⟩
      rw [hp] at h
      cases r
      · simp at h
      · simp only [feedSeq]
        rw [lift_val_cont d c m rest b st stm hd hp]
        exact ih m stm h
      · simp at h

/-! ### Leaf state lemmas (for C1) -/

theorem item_step_lbrace (d : NodeData) (kids : List JNode) (st : List Char)
    (hd : d.valueint = STATE_ITEM) :
    putbyte (.mk d kids) '{' st =
      (.cont, .mk { d with valueint := STATE_OBJECT_KEY, type := .object } kids, st) := by
  rw [putbyte_at_item _ _ _ _ hd]
  rfl

theorem item_step_lbracket (d : NodeData) (kids : List JNode) (st : List Char)
    (hd : d.valueint = STATE_ITEM) :
    putbyte (.mk d kids) '[' st =
      (.cont, .mk { d with valueint := STATE_ARRAY_VALUE, type := .array } kids, st) := by
  rw [putbyte_at_item _ _ _ _ hd]
  rfl

theorem item_step_quote (d : NodeData) (kids : List JNode) (st : List Char)
    (hd : d.valueint = STATE_ITEM) :
    putbyte (.mk d kids) '"' st =
      (.cont, .mk { d with valueint := STATE_STRING, type := .string } kids, st) := by
  rw [putbyte_at_item _ _ _ _ hd]
  rfl

theorem item_step_t (d : NodeData) (kids : List JNode) (st : List Char)
    (hd : d.valueint = STATE_ITEM) :
    putbyte (.mk d kids) 't' st =
      (.cont, .mk { d with valueint := STATE_TRUE, type := .ctrue } kids, st ++ ['t']) := by
  rw [putbyte_at_item _ _ _ _ hd]
  rfl

theorem item_step_f (d : NodeData) (kids : List JNode) (st : List Char)
    (hd : d.valueint = STATE_ITEM) :
    putbyte (.mk d kids) 'f' st =
      (.cont, .mk { d with valueint := STATE_FALSE, type := .cfalse } kids, st ++ ['f']) := by
  rw [putbyte_at_item _ _ _ _ hd]
  rfl

theorem item_step_n (d : NodeData) (kids : List JNode) (st : List Char)
    (hd : d.valueint = STATE_ITEM) :
    putbyte (.mk d kids) 'n' st =
      (.cont, .mk { d with valueint := STATE_NULL, type := .cnull } kids, st ++ ['n']) := by
  rw [putbyte_at_item _ _ _ _ hd]
  rfl

theorem item_step_num (d : NodeData) (kids : List JNode) (st : List Char) (c : Char)
    (hd : d.valueint = STATE_ITEM) (hc : firstNumByte c = true) :
    putbyte (.mk d kids) c st =
      (.cont, .mk { d with valueint := STATE_NUMBER, type := .number } kids, st ++ [c]) := by
  obtain ⟨h1, h2, h3, h4, h5, h6⟩ := firstNumByte_ne c hc
  rw [putbyte_at_item _ _ _ _ hd]
  unfold state_item
  rw [if_neg h1, if_neg h2, if_neg h3, if_neg h4, if_neg h5, if_neg h6,
    if_pos (by simp [firstNumByte] at hc; tauto)]
  simp

theorem string_finish (d : NodeData) (kids : List JNode) (st : List Char)
    (hd : d.valueint = STATE_STRING) (hlen : st.length ≤ 127) :
    putbyte (.mk d kids) '"' st =
      (.done, .mk { d with valuestring := some st } kids, []) := by
  rw [putbyte_at_string _ _ _ _ hd]
  unfold state_string string_append
  rw [if_pos rfl, if_neg (show ¬128 ≤ st.length by omega),
    if_pos (show (Char.ofNat 0).toNat = 0 by decide)]
  simp

theorem unesc_esc (e : Char) (rest : List Char) :
    unesc ('\\' :: e :: rest) =
      match escMap e with
      | some ec => (unesc rest).map (fun l => ec :: l)
      | none => none := by
  rw [unesc.eq_def]
  simp

theorem unesc_plain (c : Char) (rest : List Char) (h : ¬c = '\\') :
    unesc (c :: rest) =
      if c = '"' ∨ c.toNat = 0 then none else (unesc rest).map (fun l => c :: l) := by
  rw [unesc.eq_def]
  simp [h]

theorem string_body : ∀ (raw txt : List Char), unesc raw = some txt →
    ∀ (d : NodeData) (kids : List JNode) (st : List Char),
      d.valueint = STATE_STRING → st.length + txt.length ≤ 127 →
      feedSeq (.mk d kids) st raw = some (.mk d kids, st ++ txt)
  | [], txt, hu, d, kids, st, hd, hlen => by
    simp [unesc] at hu
    simp [feedSeq, ← hu]
  | c :: raw1, txt, hu, d, kids, st, hd, hlen => by
    obtain ⟨ty, vi, vs, strf, vd⟩ := d
    replace hd : vi = STATE_STRING := hd
    subst hd
    by_cases hbs : c = '\\'
    · subst hbs
      cases raw1 with
      | nil =>
        rw [show unesc ['\\'] = none from by decide] at hu
        simp at hu
      | cons e raw2 =>
        rw [unesc_esc e raw2] at hu
        rcases he : escMap e with _ | ec
        · rw [he] at hu
          simp at hu
        · rw [he] at hu
          rcases hu2 : unesc raw2 with _ | txt2
          · rw [hu2] at hu
            simp at hu
          · rw [hu2] at hu
            simp at hu
            subst hu
            simp only [List.length_cons] at hlen
            have step1 : putbyte (.mk ⟨ty, STATE_STRING, vs, strf, vd⟩ kids) '\\' st =
                (.cont, .mk ⟨ty, STATE_SPECIAL_CHAR, vs, strf, vd⟩ kids, st) := by
              rw [putbyte_at_string _ _ _ _ rfl]
              unfold state_string
              rw [if_neg (by decide), if_pos rfl]
              rfl
            have step2 : putbyte (.mk ⟨ty, STATE_SPECIAL_CHAR, vs, strf, vd⟩ kids) e st =
                (.cont, .mk ⟨ty, STATE_STRING, vs, strf, vd⟩ kids, st ++ [ec]) := by
              rw [putbyte_at_special_char _ _ _ _ rfl]
              rw [state_special_char_some _ _ _ ec he]
              rw [if_neg (show ¬128 ≤ st.length by omega)]
              rfl
            simp only [feedSeq, step1, step2]
            rw [string_body raw2 txt2 hu2 ⟨ty, STATE_STRING, vs, strf, vd⟩ kids
              (st ++ [ec]) rfl (by simp; omega)]
            simp
    · rw [unesc_plain c raw1 hbs] at hu
      by_cases hcq : c = '"' ∨ c.toNat = 0
      · rw [if_pos hcq] at hu
        simp at hu
      · rw [if_neg hcq] at hu
        rcases hu2 : unesc raw1 with _ | txt2
        · rw [hu2] at hu
          simp at hu
        · rw [hu2] at hu
          simp at hu
          subst hu
          simp only [List.length_cons] at hlen
          have hq : c ≠ '"' := fun hh => hcq (Or.inl hh)
          have hz : ¬c.toNat = 0 := fun hh => hcq (Or.inr hh)
          have hsa : string_append (.mk ⟨ty, STATE_STRING, vs, strf, vd⟩ kids) c st =
              (.cont, .mk ⟨ty, STATE_STRING, vs, strf, vd⟩ kids, st ++ [c]) := by
            unfold string_append
            rw [if_neg (show ¬128 ≤ st.length by omega), if_neg hz]
          have step : putbyte (.mk ⟨ty, STATE_STRING, vs, strf, vd⟩ kids) c st =
              (.cont, .mk ⟨ty, STATE_STRING, vs, strf, vd⟩ kids, st ++ [c]) := by
            rw [putbyte_at_string _ _ _ _ rfl]
            unfold state_string
            rw [if_neg hq, if_neg hbs, hsa]
          simp only [feedSeq, step]
          rw [string_body raw1 txt2 hu2 ⟨ty, STATE_STRING, vs, strf, vd⟩ kids
            (st ++ [c]) rfl (by simp; omega)]
          simp
termination_by raw _ _ _ _ _ _ _ => raw.length
decreasing_by
  all_goals simp_wf
  all_goals subst_vars
  all_goals simp only [List.length_cons]
  all_goals omega

/-! ### Number and keyword leaf lemmas (for C1) -/

theorem number_accum (cs : List Char) :
    ∀ (d : NodeData) (kids : List JNode) (st : List Char),
      cs.all numMember = true → d.valueint = STATE_NUMBER →
      feedSeq (.mk d kids) st cs = some (.mk d kids, st ++ cs) := by
  induction cs with
  | nil =>
    intro d kids st _ _
    simp [feedSeq]
  | cons c cs ih =>
    intro d kids st hall hd
    simp only [List.all_cons, Bool.and_eq_true] at hall
    have step : putbyte (.mk d kids) c st = (.cont, .mk d kids, st ++ [c]) := by
      rw [putbyte_at_number _ _ _ _ hd]
      unfold state_number
      rw [if_pos hall.1]
    simp only [feedSeq, step]
    rw [ih d kids (st ++ [c]) hall.2 hd]
    simp

theorem number_finish (d : NodeData) (kids : List JNode) (st : List Char) (t : Char)
    (hd : d.valueint = STATE_NUMBER) (hnm : numMember t = false)
    (hterm : is_whitespace t = true ∨ t = ',' ∨ t = '}' ∨ t = ']') :
    putbyte (.mk d kids) t st =
      (.done, .mk { d with
        valuedouble := strtodQ st,
        valueint := ratToCInt (strtodQ st) } kids, []) := by
  rw [putbyte_at_number _ _ _ _ hd]
  unfold state_number
  rw [if_neg (by simp [hnm]), if_pos (by
    rcases hterm with h | h | h | h <;> simp [h])]
  rfl

theorem keyword_true_feed (d : NodeData) (kids : List JNode)
    (hd : d.valueint = STATE_TRUE) :
    feedFin (.mk d kids) ['t'] ['r', 'u', 'e'] = some (.done, .mk d kids, []) := by
  have s1 : putbyte (.mk d kids) 'r' ['t'] = (.cont, .mk d kids, ['t', 'r']) := by
    rw [putbyte_at_true _ _ _ _ hd]
    simp [state_true]
  have s2 : putbyte (.mk d kids) 'u' ['t', 'r'] = (.cont, .mk d kids, ['t', 'r', 'u']) := by
    rw [putbyte_at_true _ _ _ _ hd]
    simp [state_true]
  have s3 : putbyte (.mk d kids) 'e' ['t', 'r', 'u'] = (.done, .mk d kids, []) := by
    rw [putbyte_at_true _ _ _ _ hd]
    simp [state_true]
  simp [feedFin, s1, s2, s3]

theorem keyword_false_feed (d : NodeData) (kids : List JNode)
    (hd : d.valueint = STATE_FALSE) :
    feedFin (.mk d kids) ['f'] ['a', 'l', 's', 'e'] = some (.done, .mk d kids, []) := by
  have s1 : putbyte (.mk d kids) 'a' ['f'] = (.cont, .mk d kids, ['f', 'a']) := by
    rw [putbyte_at_false _ _ _ _ hd]
    simp [state_false]
  have s2 : putbyte (.mk d kids) 'l' ['f', 'a'] = (.cont, .mk d kids, ['f', 'a', 'l']) := by
    rw [putbyte_at_false _ _ _ _ hd]
    simp [state_false]
  have s3 : putbyte (.mk d kids) 's' ['f', 'a', 'l'] =
      (.cont, .mk d kids, ['f', 'a', 'l', 's']) := by
    rw [putbyte_at_false _ _ _ _ hd]
    simp [state_false]
  have s4 : putbyte (.mk d kids) 'e' ['f', 'a', 'l', 's'] = (.done, .mk d kids, []) := by
    rw [putbyte_at_false _ _ _ _ hd]
    simp [state_false]
  simp [feedFin, s1, s2, s3, s4]

theorem keyword_null_feed (d : NodeData) (kids : List JNode)
    (hd : d.valueint = STATE_NULL) :
    feedFin (.mk d kids) ['n'] ['u', 'l', 'l'] = some (.done, .mk d kids, []) := by
  have s1 : putbyte (.mk d kids) 'u' ['n'] = (.cont, .mk d kids, ['n', 'u']) := by
    rw [putbyte_at_null _ _ _ _ hd]
    simp [state_null]
  have s2 : putbyte (.mk d kids) 'l' ['n', 'u'] = (.cont, .mk d kids, ['n', 'u', 'l']) := by
    rw [putbyte_at_null _ _ _ _ hd]
    simp [state_null]
  have s3 : putbyte (.mk d kids) 'l' ['n', 'u', 'l'] = (.done, .mk d kids, []) := by
    rw [putbyte_at_null _ _ _ _ hd]
    simp [state_null]
  simp [feedFin, s1, s2, s3]

/-! ### Helpers for the main induction (C1) -/

theorem childDoneStep_cont (d : NodeData) (rest : List JNode) (c2 : JNode)
    (st2 : List Char) (b : Char) :
    childDoneStep d rest (.cont, c2, st2) b = (.cont, .mk d (c2 :: rest), st2) := rfl

theorem isNum_exists (v : JVal) (h : isNumV v = true) : ∃ lit, v = JVal.num lit := by
  cases v <;> simp [isNumV] at h ⊢

theorem validStr_exists (kk : List Char) (h : validStr kk = true) :
    ∃ ktxt, unesc kk = some ktxt ∧ ktxt.length ≤ 127 := by
  unfold validStr at h
  rcases hu : unesc kk with _ | ktxt
  · rw [hu] at h
    simp at h
  · rw [hu] at h
    simp at h
    exact ⟨ktxt, rfl, h⟩

theorem reprV_not_number (v : JVal) (n : JNode) (hnv : isNumV v = false)
    (hr : reprV v n = true) : ¬n.data.type = CType.number := by
  cases v <;> simp [isNumV] at hnv <;>
    simp only [reprV, Bool.and_eq_true, beq_iff_eq] at hr <;>
    first
    | (intro hc; rw [hc] at hr; exact absurd hr.1 (by decide))
    | (intro hc; rw [hc] at hr; exact absurd hr.1.1 (by decide))

theorem serL_cons (v : JVal) (rest : JList) :
    serL (.cons v rest) = ser v ++ serLTail rest := by
  cases rest <;> simp [serL, serLTail]

theorem serM_cons (k : List Char) (v : JVal) (rest : JMembers) :
    serM (.cons k v rest) = '"' :: (k ++ '"' :: ':' :: ser v) ++ serMTail rest := by
  cases rest <;> simp [serM, serMTail]

theorem ser_head (v : JVal) (hv : validV v = true) :
    ∃ b bs, ser v = b :: bs ∧ startByte b = true := by
  cases v with
  | str raw => exact ⟨'"', _, rfl, by decide⟩
  | num lit =>
    cases lit with
    | nil => simp [validV] at hv
    | cons c cs =>
      simp only [validV, Bool.and_eq_true] at hv
      exact ⟨c, cs, rfl, by simp [startByte, hv.1.1]⟩
  | tru => exact ⟨'t', _, rfl, by decide⟩
  | fls => exact ⟨'f', _, rfl, by decide⟩
  | nul => exact ⟨'n', _, rfl, by decide⟩
  | arr es => exact ⟨'[', _, rfl, by decide⟩
  | obj ms => exact ⟨'{', _, rfl, by decide⟩

theorem parsed_close_arr (dd : NodeData) (kids : List JNode) (st : List Char)
    (h : dd.valueint = STATE_ARRAY_VALUE_PARSED) :
    putbyte (.mk dd kids) ']' st = (.done, .mk dd kids.reverse, st) := by
  rw [putbyte_at_value_parsed _ _ _ _ (Or.inr h)]
  unfold state_object_array_value_parsed
  rw [if_neg (by decide), if_neg (by decide), if_pos (Or.inl ⟨rfl, by simpa using h⟩)]
  simp

theorem parsed_close_obj (dd : NodeData) (kids : List JNode) (st : List Char)
    (h : dd.valueint = STATE_OBJECT_VALUE_PARSED) :
    putbyte (.mk dd kids) '}' st = (.done, .mk dd kids.reverse, st) := by
  rw [putbyte_at_value_parsed _ _ _ _ (Or.inl h)]
  unfold state_object_array_value_parsed
  rw [if_neg (by decide), if_neg (by decide), if_pos (Or.inr ⟨rfl, by simpa using h⟩)]
  simp

theorem parsed_comma_arr (dd : NodeData) (kids : List JNode) (st : List Char)
    (h : dd.valueint = STATE_ARRAY_VALUE_PARSED) :
    putbyte (.mk dd kids) ',' st =
      (.cont, .mk { dd with valueint := STATE_ARRAY_VALUE } (zeroNode :: kids), st) := by
  rw [putbyte_at_value_parsed _ _ _ _ (Or.inr h)]
  unfold state_object_array_value_parsed
  rw [if_neg (by decide), if_pos rfl]
  simp [h]

theorem parsed_comma_obj (dd : NodeData) (kids : List JNode) (st : List Char)
    (h : dd.valueint = STATE_OBJECT_VALUE_PARSED) :
    putbyte (.mk dd kids) ',' st =
      (.cont, .mk { dd with valueint := STATE_OBJECT_KEY } (zeroNode :: kids), st) := by
  rw [putbyte_at_value_parsed _ _ _ _ (Or.inl h)]
  unfold state_object_array_value_parsed
  rw [if_neg (by decide), if_pos rfl]
  simp [h]
  intro hbad
  exact absurd hbad (by decide)

theorem value_start_alloc (d : NodeData) (b : Char) (st : List Char)
    (hd : d.valueint = STATE_OBJECT_VALUE ∨ d.valueint = STATE_ARRAY_VALUE)
    (hb : startByte b = true) :
    putbyte (.mk d []) b st = putbyte (.mk d [zeroNode]) b st := by
  rw [putbyte_at_value_nil _ _ _ hd, putbyte_at_value_cons _ _ _ _ _ hd]
  rw [show zeroNode = JNode.mk zeroData [] from rfl, putbyte_at_item zeroData [] b st rfl]
  rw [if_neg (by simp [startByte_not_ws b hb]), if_neg (by
    have := startByte_ne_rbracket b hb
    simp [this])]

theorem key_start_alloc (d : NodeData) (st : List Char)
    (hd : d.valueint = STATE_OBJECT_KEY) :
    putbyte (.mk d []) '"' st = (.cont, .mk d [keyStartNode], st) := by
  rw [putbyte_at_object_key_nil _ _ _ hd]
  rw [if_neg (by decide), if_neg (by decide), if_pos rfl]
  rfl

theorem key_start_delegate (d : NodeData) (doneRev : List JNode) (st : List Char)
    (hd : d.valueint = STATE_OBJECT_KEY) :
    putbyte (.mk d (zeroNode :: doneRev)) '"' st =
      (.cont, .mk d (keyStartNode :: doneRev), st) := by
  have hz : putbyte zeroNode '"' st = (.cont, keyStartNode, st) := by
    rw [show zeroNode = JNode.mk zeroData [] from rfl, item_step_quote zeroData [] st rfl]
    rfl
  exact lift_key_cont d zeroNode keyStartNode doneRev '"' st st hd hz

theorem feedNum (lit : List Char) (d : NodeData)
    (hv : validV (.num lit) = true) (hstate : d.valueint = STATE_ITEM) :
    feedSeq (.mk d []) [] lit =
      some (.mk { d with valueint := STATE_NUMBER, type := CType.number } [], lit) := by
  cases lit with
  | nil => simp [validV] at hv
  | cons c cs =>
    simp only [validV, Bool.and_eq_true, List.all_cons] at hv
    obtain ⟨⟨hfst, hme, hall⟩, hlen⟩ := hv
    have hacc := number_accum cs { d with valueint := STATE_NUMBER, type := CType.number }
      [] ([] ++ [c]) hall rfl
    simp only [List.nil_append] at hacc
    simp only [feedSeq]
    rw [item_step_num d [] [] c hstate hfst]
    simpa using hacc

theorem svp_close_arr (dd : NodeData) (kids : List JNode) (st : List Char)
    (h : dd.valueint = STATE_ARRAY_VALUE_PARSED) :
    state_object_array_value_parsed (.mk dd kids) ']' st = (.done, .mk dd kids.reverse, st) := by
  unfold state_object_array_value_parsed
  rw [if_neg (by decide), if_neg (by decide), if_pos (Or.inl ⟨rfl, by simpa using h⟩)]
  simp

theorem svp_close_obj (dd : NodeData) (kids : List JNode) (st : List Char)
    (h : dd.valueint = STATE_OBJECT_VALUE_PARSED) :
    state_object_array_value_parsed (.mk dd kids) '}' st = (.done, .mk dd kids.reverse, st) := by
  unfold state_object_array_value_parsed
  rw [if_neg (by decide), if_neg (by decide), if_pos (Or.inr ⟨rfl, by simpa using h⟩)]
  simp

theorem svp_comma_arr (dd : NodeData) (kids : List JNode) (st : List Char)
    (h : dd.valueint = STATE_ARRAY_VALUE_PARSED) :
    state_object_array_value_parsed (.mk dd kids) ',' st =
      (.cont, .mk { dd with valueint := STATE_ARRAY_VALUE } (zeroNode :: kids), st) := by
  unfold state_object_array_value_parsed
  rw [if_neg (by decide), if_pos rfl]
  simp [h]

theorem svp_comma_obj (dd : NodeData) (kids : List JNode) (st : List Char)
    (h : dd.valueint = STATE_OBJECT_VALUE_PARSED) :
    state_object_array_value_parsed (.mk dd kids) ',' st =
      (.cont, .mk { dd with valueint := STATE_OBJECT_KEY } (zeroNode :: kids), st) := by
  unfold state_object_array_value_parsed
  rw [if_neg (by decide), if_pos rfl]
  simp [h]
  intro hbad
  exact absurd hbad (by decide)

theorem number_child_replay (D nd : NodeData) (doneRev : List JNode) (t : Char)
    (lit : List Char)
    (hD : D.valueint = STATE_OBJECT_VALUE ∨ D.valueint = STATE_ARRAY_VALUE)
    (hnd : nd.valueint = STATE_NUMBER) (hty : nd.type = CType.number)
    (hnm : numMember t = false)
    (hterm : is_whitespace t = true ∨ t = ',' ∨ t = '}' ∨ t = ']') :
    putbyte (.mk D (.mk nd [] :: doneRev)) t lit =
      state_object_array_value_parsed
        (.mk { D with valueint := parsedOf D.valueint }
          (.mk { nd with
            valuedouble := strtodQ lit,
            valueint := ratToCInt (strtodQ lit) } [] :: doneRev)) t [] := by
  rw [putbyte_at_value_cons _ _ _ _ _ hD]
  rw [number_finish nd [] lit t hnd hnm hterm]
  simp only [childDoneStep]
  rw [if_pos (by simp [hty])]
  simp [parsedOf]

theorem opt_bind_some {α β : Type} (a : α) (f : α → Option β) :
    (some a).bind f = f a := rfl

theorem feedFin_single (n : JNode) (st : List Char) (b : Char) :
    feedFin n st [b] = some (putbyte n b st) := rfl

theorem feedFin_cons_cont (n n2 : JNode) (st st2 : List Char) (b : Char) (bs : List Char)
    (hbs : bs ≠ []) (h : putbyte n b st = (.cont, n2, st2)) :
    feedFin n st (b :: bs) = feedFin n2 st2 bs := by
  cases bs with
  | nil => exact absurd rfl hbs
  | cons z zs => simp only [feedFin, h]

theorem feedSeq_cons_cont (n n2 : JNode) (st st2 : List Char) (b : Char) (bs : List Char)
    (h : putbyte n b st = (.cont, n2, st2)) :
    feedSeq n st (b :: bs) = feedSeq n2 st2 bs := by
  simp only [feedSeq, h]

theorem keyStartNode_eq :
    keyStartNode = JNode.mk ⟨CType.string, STATE_STRING, none, none, 0⟩ [] := rfl

theorem zeroNode_eq : zeroNode = JNode.mk ⟨CType.invalid, 0, none, none, 0⟩ [] := rfl

/-! ### The main induction: feeding a serialized value completes correctly -/

mutual

theorem feedVal : ∀ (V : JVal) (d : NodeData),
    validV V = true → isNumV V = false → d.valueint = STATE_ITEM →
    d.valuestring = none →
    ∃ n2 : JNode, feedFin (.mk d []) [] (ser V) = some (.done, n2, []) ∧
      reprV V n2 = true ∧ n2.data.string = d.string
  | V, d, hv, hnum, hstate, hvs => by
    obtain ⟨ty, vi, vs, strf, vd⟩ := d
    replace hstate : vi = STATE_ITEM := hstate
    replace hvs : vs = none := hvs
    subst hstate
    subst hvs
    cases V with
    | num lit => simp [isNumV] at hnum
    | tru =>
      refine ⟨.mk ⟨CType.ctrue, STATE_TRUE, none, strf, vd⟩ [], ?_, by simp [reprV], rfl⟩
      have h1 : putbyte (.mk ⟨ty, STATE_ITEM, none, strf, vd⟩ []) 't' [] =
          (.cont, .mk ⟨CType.ctrue, STATE_TRUE, none, strf, vd⟩ [], ['t']) := by
        rw [item_step_t _ _ _ rfl]
        rfl
      rw [show ser JVal.tru = 't' :: ['r', 'u', 'e'] from rfl]
      rw [feedFin_cons_cont _ _ _ _ _ _ (by simp) h1]
      exact keyword_true_feed _ _ rfl
    | fls =>
      refine ⟨.mk ⟨CType.cfalse, STATE_FALSE, none, strf, vd⟩ [], ?_, by simp [reprV], rfl⟩
      have h1 : putbyte (.mk ⟨ty, STATE_ITEM, none, strf, vd⟩ []) 'f' [] =
          (.cont, .mk ⟨CType.cfalse, STATE_FALSE, none, strf, vd⟩ [], ['f']) := by
        rw [item_step_f _ _ _ rfl]
        rfl
      rw [show ser JVal.fls = 'f' :: ['a', 'l', 's', 'e'] from rfl]
      rw [feedFin_cons_cont _ _ _ _ _ _ (by simp) h1]
      exact keyword_false_feed _ _ rfl
    | nul =>
      refine ⟨.mk ⟨CType.cnull, STATE_NULL, none, strf, vd⟩ [], ?_, by simp [reprV], rfl⟩
      have h1 : putbyte (.mk ⟨ty, STATE_ITEM, none, strf, vd⟩ []) 'n' [] =
          (.cont, .mk ⟨CType.cnull, STATE_NULL, none, strf, vd⟩ [], ['n']) := by
        rw [item_step_n _ _ _ rfl]
        rfl
      rw [show ser JVal.nul = 'n' :: ['u', 'l', 'l'] from rfl]
      rw [feedFin_cons_cont _ _ _ _ _ _ (by simp) h1]
      exact keyword_null_feed _ _ rfl
    | str raw =>
      have hvs : validStr raw = true := by simpa [validV] using hv
      obtain ⟨txt, hkt, hklen⟩ := validStr_exists raw hvs
      refine ⟨.mk ⟨CType.string, STATE_STRING, some txt, strf, vd⟩ [], ?_,
        by simp [reprV, hkt], rfl⟩
      have h1 : putbyte (.mk ⟨ty, STATE_ITEM, none, strf, vd⟩ []) '"' [] =
          (.cont, .mk ⟨CType.string, STATE_STRING, none, strf, vd⟩ [], []) := by
        rw [item_step_quote _ _ _ rfl]
      rw [show ser (JVal.str raw) = '"' :: (raw ++ ['"']) from rfl]
      rw [feedFin_cons_cont _ _ _ _ _ _ (by simp) h1]
      rw [feedFin_append _ _ raw ['"'] (by simp)]
      rw [string_body raw txt hkt ⟨CType.string, STATE_STRING, none, strf, vd⟩ [] [] rfl
        (by simpa using hklen), opt_bind_some]
      rw [show (([] : List Char) ++ txt) = txt from by simp]
      rw [feedFin_single, string_finish _ _ _ rfl hklen]
    | arr es =>
      have h1 : putbyte (.mk ⟨ty, STATE_ITEM, none, strf, vd⟩ []) '[' [] =
          (.cont, .mk ⟨CType.array, STATE_ARRAY_VALUE, none, strf, vd⟩ [], []) := by
        rw [item_step_lbracket _ _ _ rfl]
      cases es with
      | nil =>
        refine ⟨.mk ⟨CType.array, STATE_ARRAY_VALUE, none, strf, vd⟩ [], ?_,
          by simp [reprV, reprL], rfl⟩
        rw [show ser (JVal.arr .nil) = '[' :: [']'] from rfl]
        rw [feedFin_cons_cont _ _ _ _ _ _ (by simp) h1, feedFin_single]
        rw [putbyte_at_value_nil _ _ _ (Or.inr rfl)]
        rw [if_neg (by decide), if_pos rfl]
      | cons w es2 =>
        have hv2 : validV w = true ∧ validL es2 = true := by
          simpa [validV, validL] using hv
        obtain ⟨ns, hrec, hreprL⟩ := elemTail w es2
          ⟨CType.array, STATE_ARRAY_VALUE, none, strf, vd⟩ [] hv2.1 hv2.2 rfl
        refine ⟨.mk ⟨CType.array, STATE_ARRAY_VALUE_PARSED, none, strf, vd⟩ ns, ?_,
          by simp [reprV, hreprL], rfl⟩
        rw [show ser (JVal.arr (.cons w es2)) = '[' :: (serL (.cons w es2) ++ [']']) from rfl]
        rw [feedFin_cons_cont _ _ _ _ _ _ (by simp) h1]
        rw [serL_cons, List.append_assoc]
        obtain ⟨b0, bs0, hser, hsb⟩ := ser_head w hv2.1
        have hcong : feedFin (.mk ⟨CType.array, STATE_ARRAY_VALUE, none, strf, vd⟩ []) []
            (ser w ++ (serLTail es2 ++ [']'])) =
            feedFin (.mk ⟨CType.array, STATE_ARRAY_VALUE, none, strf, vd⟩ [zeroNode]) []
            (ser w ++ (serLTail es2 ++ [']'])) := by
          rw [hser, List.cons_append]
          exact feedFin_congr_head _ _ _ _ _
            (value_start_alloc _ _ _ (Or.inr rfl) hsb)
        rw [hcong]
        simpa using hrec
    | obj ms =>
      have h1 : putbyte (.mk ⟨ty, STATE_ITEM, none, strf, vd⟩ []) '{' [] =
          (.cont, .mk ⟨CType.object, STATE_OBJECT_KEY, none, strf, vd⟩ [], []) := by
        rw [item_step_lbrace _ _ _ rfl]
      cases ms with
      | nil =>
        refine ⟨.mk ⟨CType.object, STATE_OBJECT_KEY, none, strf, vd⟩ [], ?_,
          by simp [reprV, reprM], rfl⟩
        rw [show ser (JVal.obj .nil) = '{' :: ['}'] from rfl]
        rw [feedFin_cons_cont _ _ _ _ _ _ (by simp) h1, feedFin_single]
        rw [putbyte_at_object_key_nil _ _ _ rfl]
        rw [if_neg (by decide), if_pos rfl]
      | cons kk w ms2 =>
        have hv2 : validStr kk = true ∧ validV w = true ∧ validM ms2 = true := by
          simpa [validV, validM, and_assoc] using hv
        obtain ⟨ns, hrec, hreprM⟩ := memTail kk w ms2
          ⟨CType.object, STATE_OBJECT_KEY, none, strf, vd⟩ [] hv2.1 hv2.2.1 hv2.2.2 rfl
        refine ⟨.mk ⟨CType.object, STATE_OBJECT_VALUE_PARSED, none, strf, vd⟩ ns, ?_,
          by simp [reprV, hreprM], rfl⟩
        rw [show ser (JVal.obj (.cons kk w ms2)) = '{' :: (serM (.cons kk w ms2) ++ ['}'])
          from rfl]
        rw [feedFin_cons_cont _ _ _ _ _ _ (by simp) h1]
        rw [serM_cons]
        rw [show (('"' :: (kk ++ '"' :: ':' :: ser w) ++ serMTail ms2) ++ ['}'])
            = '"' :: (kk ++ '"' :: ':' :: (ser w ++ (serMTail ms2 ++ ['}']))) from by
          simp [List.append_assoc]]
        rw [feedFin_cons_cont _ _ _ _ _ _ (by simp) (key_start_alloc _ _ rfl)]
        simpa using hrec
termination_by V _ _ _ _ _ => sizeOf V

theorem elemTail : ∀ (v : JVal) (es : JList) (d : NodeData) (doneRev : List JNode),
    validV v = true → validL es = true → d.valueint = STATE_ARRAY_VALUE →
    ∃ ns : List JNode,
      feedFin (.mk d (zeroNode :: doneRev)) [] (ser v ++ (serLTail es ++ [']'])) =
        some (.done, .mk { d with valueint := STATE_ARRAY_VALUE_PARSED }
          (doneRev.reverse ++ ns), []) ∧
      reprL (.cons v es) ns = true
  | v, es, d, doneRev, hv, hes, hd => by
    obtain ⟨ty, vi, vs, strf, vd⟩ := d
    replace hd : vi = STATE_ARRAY_VALUE := hd
    subst hd
    rw [zeroNode_eq]
    cases hnv : isNumV v with
    | false =>
      obtain ⟨n2, hfeed, hrepr, hstr⟩ := feedVal v ⟨CType.invalid, 0, none, none, 0⟩
        hv hnv rfl rfl
      have hne := reprV_not_number v n2 hnv hrepr
      have hlift := lift_val_feedFin ⟨ty, STATE_ARRAY_VALUE, vs, strf, vd⟩ doneRev (ser v)
        (.mk ⟨CType.invalid, 0, none, none, 0⟩ []) n2 [] [] (Or.inr rfl) hfeed hne
      rw [show parsedOf ((⟨ty, STATE_ARRAY_VALUE, vs, strf, vd⟩ : NodeData).valueint)
          = STATE_ARRAY_VALUE_PARSED from by simp [parsedOf]] at hlift
      cases es with
      | nil =>
        refine ⟨[n2], ?_, by simp [reprL, hrepr]⟩
        rw [show (serLTail JList.nil ++ [']']) = [']'] from rfl]
        rw [feedFin_append _ _ (ser v) [']'] (by simp), hlift, opt_bind_some]
        rw [feedFin_single, parsed_close_arr _ _ _ rfl]
        simp
      | cons w es2 =>
        have hv2 : validV w = true ∧ validL es2 = true := by
          simpa [validL] using hes
        obtain ⟨ns2, hrec, hreprL2⟩ := elemTail w es2 ⟨ty, STATE_ARRAY_VALUE, vs, strf, vd⟩
          (n2 :: doneRev) hv2.1 hv2.2 rfl
        refine ⟨n2 :: ns2, ?_, by simp [reprL, hrepr, hreprL2]⟩
        rw [feedFin_append _ _ (ser v) (serLTail (.cons w es2) ++ [']'])
          (by simp [serLTail]), hlift, opt_bind_some]
        rw [show serLTail (JList.cons w es2) = ',' :: serL (.cons w es2) from rfl]
        rw [List.cons_append]
        rw [feedFin_cons_cont _ _ _ _ _ _ (by simp) (parsed_comma_arr _ _ _ rfl)]
        rw [serL_cons, List.append_assoc]
        rw [show ({(⟨ty, STATE_ARRAY_VALUE_PARSED, vs, strf, vd⟩ : NodeData) with
            valueint := STATE_ARRAY_VALUE} : NodeData)
            = ⟨ty, STATE_ARRAY_VALUE, vs, strf, vd⟩ from rfl]
        rw [hrec]
        simp
    | true =>
      obtain ⟨lit, rfl⟩ := isNum_exists v hnv
      have hnumfeed := feedNum lit ⟨CType.invalid, 0, none, none, 0⟩ hv rfl
      rw [show ({(⟨CType.invalid, 0, none, none, 0⟩ : NodeData) with
          valueint := STATE_NUMBER, type := CType.number} : NodeData)
          = ⟨CType.number, STATE_NUMBER, none, none, 0⟩ from rfl] at hnumfeed
      have hlift := lift_val_feedSeq ⟨ty, STATE_ARRAY_VALUE, vs, strf, vd⟩ doneRev lit
        (.mk ⟨CType.invalid, 0, none, none, 0⟩ [])
        (.mk ⟨CType.number, STATE_NUMBER, none, none, 0⟩ []) [] lit (Or.inr rfl) hnumfeed
      rw [show ser (JVal.num lit) = lit from rfl]
      cases es with
      | nil =>
        refine ⟨[.mk ⟨CType.number, ratToCInt (strtodQ lit), none, none, strtodQ lit⟩ []],
          ?_, by simp [reprL, reprV]⟩
        rw [show (serLTail JList.nil ++ [']']) = [']'] from rfl]
        rw [feedFin_append _ _ lit [']'] (by simp), hlift, opt_bind_some, feedFin_single]
        rw [number_child_replay ⟨ty, STATE_ARRAY_VALUE, vs, strf, vd⟩
          ⟨CType.number, STATE_NUMBER, none, none, 0⟩ doneRev ']' lit (Or.inr rfl) rfl rfl
          (by decide) (by decide)]
        rw [show ({(⟨ty, STATE_ARRAY_VALUE, vs, strf, vd⟩ : NodeData) with
            valueint := parsedOf ((⟨ty, STATE_ARRAY_VALUE, vs, strf, vd⟩ : NodeData).valueint)}
            : NodeData) = ⟨ty, STATE_ARRAY_VALUE_PARSED, vs, strf, vd⟩ from by
          simp [parsedOf]]
        rw [svp_close_arr _ _ _ rfl]
        simp
      | cons w es2 =>
        have hv2 : validV w = true ∧ validL es2 = true := by
          simpa [validL] using hes
        obtain ⟨ns2, hrec, hreprL2⟩ := elemTail w es2 ⟨ty, STATE_ARRAY_VALUE, vs, strf, vd⟩
          (.mk ⟨CType.number, ratToCInt (strtodQ lit), none, none, strtodQ lit⟩ [] :: doneRev)
          hv2.1 hv2.2 rfl
        refine ⟨.mk ⟨CType.number, ratToCInt (strtodQ lit), none, none, strtodQ lit⟩ [] :: ns2,
          ?_, by simp [reprL, reprV, hreprL2]⟩
        rw [feedFin_append _ _ lit (serLTail (.cons w es2) ++ [']']) (by simp [serLTail]),
          hlift, opt_bind_some]
        rw [show serLTail (JList.cons w es2) = ',' :: serL (.cons w es2) from rfl]
        rw [List.cons_append]
        have hcomma : putbyte (.mk ⟨ty, STATE_ARRAY_VALUE, vs, strf, vd⟩
            (.mk ⟨CType.number, STATE_NUMBER, none, none, 0⟩ [] :: doneRev)) ',' lit =
            (.cont, .mk ⟨ty, STATE_ARRAY_VALUE, vs, strf, vd⟩
              (zeroNode ::
                .mk ⟨CType.number, ratToCInt (strtodQ lit), none, none, strtodQ lit⟩ []
                :: doneRev), []) := by
          rw [number_child_replay ⟨ty, STATE_ARRAY_VALUE, vs, strf, vd⟩
            ⟨CType.number, STATE_NUMBER, none, none, 0⟩ doneRev ',' lit (Or.inr rfl) rfl rfl
            (by decide) (by decide)]
          rw [show ({(⟨ty, STATE_ARRAY_VALUE, vs, strf, vd⟩ : NodeData) with
              valueint := parsedOf ((⟨ty, STATE_ARRAY_VALUE, vs, strf, vd⟩ :
                NodeData).valueint)} : NodeData)
              = ⟨ty, STATE_ARRAY_VALUE_PARSED, vs, strf, vd⟩ from by simp [parsedOf]]
          exact svp_comma_arr _ _ _ rfl
        rw [feedFin_cons_cont _ _ _ _ _ _ (by simp) hcomma]
        rw [serL_cons, List.append_assoc]
        rw [hrec]
        simp
termination_by v es _ _ _ _ _ => 1 + sizeOf v + sizeOf es

theorem memTail : ∀ (kk : List Char) (v : JVal) (ms : JMembers) (d : NodeData)
    (doneRev : List JNode),
    validStr kk = true → validV v = true → validM ms = true →
    d.valueint = STATE_OBJECT_KEY →
    ∃ ns : List JNode,
      feedFin (.mk d (keyStartNode :: doneRev)) []
          (kk ++ '"' :: ':' :: (ser v ++ (serMTail ms ++ ['}']))) =
        some (.done, .mk { d with valueint := STATE_OBJECT_VALUE_PARSED }
          (doneRev.reverse ++ ns), []) ∧
      reprM (.cons kk v ms) ns = true
  | kk, v, ms, d, doneRev, hk, hv, hms, hd => by
    obtain ⟨ty, vi, vs, strf, vd⟩ := d
    replace hd : vi = STATE_OBJECT_KEY := hd
    subst hd
    obtain ⟨ktxt, hkt, hklen⟩ := validStr_exists kk hk
    rw [keyStartNode_eq]
    have hbody := string_body kk ktxt hkt ⟨CType.string, STATE_STRING, none, none, 0⟩ [] []
      rfl (by simpa using hklen)
    simp only [List.nil_append] at hbody
    have hliftkey := lift_key_feedSeq ⟨ty, STATE_OBJECT_KEY, vs, strf, vd⟩ doneRev kk
      (.mk ⟨CType.string, STATE_STRING, none, none, 0⟩ [])
      (.mk ⟨CType.string, STATE_STRING, none, none, 0⟩ []) [] ktxt rfl hbody
    rw [feedFin_append _ _ kk ('"' :: ':' :: (ser v ++ (serMTail ms ++ ['}']))) (by simp),
      hliftkey, opt_bind_some]
    have hfin : putbyte (.mk ⟨CType.string, STATE_STRING, none, none, 0⟩ []) '"' ktxt =
        (.done, .mk ⟨CType.string, STATE_STRING, some ktxt, none, 0⟩ [], []) := by
      rw [string_finish ⟨CType.string, STATE_STRING, none, none, 0⟩ [] ktxt rfl hklen]
    have hkeydone := lift_key_done ⟨ty, STATE_OBJECT_KEY, vs, strf, vd⟩
      (.mk ⟨CType.string, STATE_STRING, none, none, 0⟩ [])
      (.mk ⟨CType.string, STATE_STRING, some ktxt, none, 0⟩ []) doneRev '"' ktxt [] rfl hfin
    rw [show (.mk { (JNode.mk ⟨CType.string, STATE_STRING, some ktxt, none, 0⟩ []).data with
        string := (JNode.mk ⟨CType.string, STATE_STRING, some ktxt, none, 0⟩ []).data.valuestring,
        valuestring := none,
        valueint := STATE_ITEM } (JNode.mk ⟨CType.string, STATE_STRING, some ktxt, none, 0⟩
          []).kids : JNode)
        = JNode.mk ⟨CType.string, STATE_ITEM, none, some ktxt, 0⟩ [] from rfl] at hkeydone
    rw [feedFin_cons_cont _ _ _ _ _ _ (by simp) hkeydone]
    have hcolon : putbyte (.mk { (⟨ty, STATE_OBJECT_KEY, vs, strf, vd⟩ : NodeData) with
        valueint := STATE_OBJECT_KEY_PARSED }
        (.mk ⟨CType.string, STATE_ITEM, none, some ktxt, 0⟩ [] :: doneRev)) ':' [] =
        (.cont, .mk ⟨ty, STATE_OBJECT_VALUE, vs, strf, vd⟩
          (.mk ⟨CType.string, STATE_ITEM, none, some ktxt, 0⟩ [] :: doneRev), []) := by
      rw [putbyte_at_object_key_parsed _ _ _ _ rfl]
      unfold state_object_key_parsed
      rw [if_neg (by decide), if_pos rfl]
      rfl
    rw [feedFin_cons_cont _ _ _ _ _ _ (by simp) hcolon]
    cases hnv : isNumV v with
    | false =>
      obtain ⟨n2, hfeed, hrepr, hstr⟩ := feedVal v ⟨CType.string, STATE_ITEM, none, some ktxt, 0⟩
        hv hnv rfl rfl
      have hne := reprV_not_number v n2 hnv hrepr
      have hlift := lift_val_feedFin ⟨ty, STATE_OBJECT_VALUE, vs, strf, vd⟩ doneRev (ser v)
        (.mk ⟨CType.string, STATE_ITEM, none, some ktxt, 0⟩ []) n2 [] [] (Or.inl rfl) hfeed hne
      rw [show parsedOf ((⟨ty, STATE_OBJECT_VALUE, vs, strf, vd⟩ : NodeData).valueint)
          = STATE_OBJECT_VALUE_PARSED from by
        simp [parsedOf, STATE_OBJECT_VALUE, STATE_ARRAY_VALUE]] at hlift
      cases ms with
      | nil =>
        refine ⟨[n2], ?_, by simp [reprM, hrepr, hstr, hkt]⟩
        rw [show (serMTail JMembers.nil ++ ['}']) = ['}'] from rfl]
        rw [feedFin_append _ _ (ser v) ['}'] (by simp), hlift, opt_bind_some]
        rw [feedFin_single, parsed_close_obj _ _ _ rfl]
        simp
      | cons kk2 w ms2 =>
        have hv2 : validStr kk2 = true ∧ validV w = true ∧ validM ms2 = true := by
          simpa [validM, and_assoc] using hms
        obtain ⟨ns2, hrec, hreprM2⟩ := memTail kk2 w ms2 ⟨ty, STATE_OBJECT_KEY, vs, strf, vd⟩
          (n2 :: doneRev) hv2.1 hv2.2.1 hv2.2.2 rfl
        refine ⟨n2 :: ns2, ?_, by simp [reprM, hrepr, hstr, hkt, hreprM2]⟩
        rw [feedFin_append _ _ (ser v) (serMTail (.cons kk2 w ms2) ++ ['}'])
          (by simp [serMTail]), hlift, opt_bind_some]
        rw [show serMTail (JMembers.cons kk2 w ms2) = ',' :: serM (.cons kk2 w ms2) from rfl]
        rw [List.cons_append]
        rw [feedFin_cons_cont _ _ _ _ _ _ (by simp) (parsed_comma_obj _ _ _ rfl)]
        rw [show ({(⟨ty, STATE_OBJECT_VALUE_PARSED, vs, strf, vd⟩ : NodeData) with
            valueint := STATE_OBJECT_KEY} : NodeData)
            = ⟨ty, STATE_OBJECT_KEY, vs, strf, vd⟩ from rfl]
        rw [serM_cons]
        rw [show ((('"' :: (kk2 ++ '"' :: ':' :: ser w) ++ serMTail ms2)) ++ ['}'])
            = '"' :: (kk2 ++ '"' :: ':' :: (ser w ++ (serMTail ms2 ++ ['}']))) from by
          simp [List.append_assoc]]
        rw [feedFin_cons_cont _ _ _ _ _ _ (by simp) (key_start_delegate _ _ _ rfl)]
        rw [hrec]
        simp
    | true =>
      obtain ⟨lit, rfl⟩ := isNum_exists v hnv
      have hnumfeed := feedNum lit ⟨CType.string, STATE_ITEM, none, some ktxt, 0⟩ hv rfl
      rw [show ({(⟨CType.string, STATE_ITEM, none, some ktxt, 0⟩ : NodeData) with
          valueint := STATE_NUMBER, type := CType.number} : NodeData)
          = ⟨CType.number, STATE_NUMBER, none, some ktxt, 0⟩ from rfl] at hnumfeed
      have hlift := lift_val_feedSeq ⟨ty, STATE_OBJECT_VALUE, vs, strf, vd⟩ doneRev lit
        (.mk ⟨CType.string, STATE_ITEM, none, some ktxt, 0⟩ [])
        (.mk ⟨CType.number, STATE_NUMBER, none, some ktxt, 0⟩ []) [] lit (Or.inl rfl) hnumfeed
      rw [show ser (JVal.num lit) = lit from rfl]
      cases ms with
      | nil =>
        refine ⟨[.mk ⟨CType.number, ratToCInt (strtodQ lit), none, some ktxt, strtodQ lit⟩ []],
          ?_, by simp [reprM, reprV, hkt]⟩
        rw [show (serMTail JMembers.nil ++ ['}']) = ['}'] from rfl]
        rw [feedFin_append _ _ lit ['}'] (by simp), hlift, opt_bind_some, feedFin_single]
        rw [number_child_replay ⟨ty, STATE_OBJECT_VALUE, vs, strf, vd⟩
          ⟨CType.number, STATE_NUMBER, none, some ktxt, 0⟩ doneRev '}' lit (Or.inl rfl) rfl rfl
          (by decide) (by decide)]
        rw [show ({(⟨ty, STATE_OBJECT_VALUE, vs, strf, vd⟩ : NodeData) with
            valueint := parsedOf ((⟨ty, STATE_OBJECT_VALUE, vs, strf, vd⟩ :
              NodeData).valueint)} : NodeData)
            = ⟨ty, STATE_OBJECT_VALUE_PARSED, vs, strf, vd⟩ from by
          simp [parsedOf, STATE_OBJECT_VALUE, STATE_ARRAY_VALUE]]
        rw [svp_close_obj _ _ _ rfl]
        simp
      | cons kk2 w ms2 =>
        have hv2 : validStr kk2 = true ∧ validV w = true ∧ validM ms2 = true := by
          simpa [validM, and_assoc] using hms
        obtain ⟨ns2, hrec, hreprM2⟩ := memTail kk2 w ms2 ⟨ty, STATE_OBJECT_KEY, vs, strf, vd⟩
          (.mk ⟨CType.number, ratToCInt (strtodQ lit), none, some ktxt, strtodQ lit⟩ []
            :: doneRev) hv2.1 hv2.2.1 hv2.2.2 rfl
        refine ⟨.mk ⟨CType.number, ratToCInt (strtodQ lit), none, some ktxt, strtodQ lit⟩ []
          :: ns2, ?_, by simp [reprM, reprV, hkt, hreprM2]⟩
        rw [feedFin_append _ _ lit (serMTail (.cons kk2 w ms2) ++ ['}'])
          (by simp [serMTail]), hlift, opt_bind_some]
        rw [show serMTail (JMembers.cons kk2 w ms2) = ',' :: serM (.cons kk2 w ms2) from rfl]
        rw [List.cons_append]
        have hcomma : putbyte (.mk ⟨ty, STATE_OBJECT_VALUE, vs, strf, vd⟩
            (.mk ⟨CType.number, STATE_NUMBER, none, some ktxt, 0⟩ [] :: doneRev)) ',' lit =
            (.cont, .mk ⟨ty, STATE_OBJECT_KEY, vs, strf, vd⟩
              (zeroNode ::
                .mk ⟨CType.number, ratToCInt (strtodQ lit), none, some ktxt, strtodQ lit⟩ []
                :: doneRev), []) := by
          rw [number_child_replay ⟨ty, STATE_OBJECT_VALUE, vs, strf, vd⟩
            ⟨CType.number, STATE_NUMBER, none, some ktxt, 0⟩ doneRev ',' lit (Or.inl rfl)
            rfl rfl (by decide) (by decide)]
          rw [show ({(⟨ty, STATE_OBJECT_VALUE, vs, strf, vd⟩ : NodeData) with
              valueint := parsedOf ((⟨ty, STATE_OBJECT_VALUE, vs, strf, vd⟩ :
                NodeData).valueint)} : NodeData)
              = ⟨ty, STATE_OBJECT_VALUE_PARSED, vs, strf, vd⟩ from by
            simp [parsedOf, STATE_OBJECT_VALUE, STATE_ARRAY_VALUE]]
          exact svp_comma_obj _ _ _ rfl
        rw [feedFin_cons_cont _ _ _ _ _ _ (by simp) hcomma]
        rw [serM_cons]
        rw [show ((('"' :: (kk2 ++ '"' :: ':' :: ser w) ++ serMTail ms2)) ++ ['}'])
            = '"' :: (kk2 ++ '"' :: ':' :: (ser w ++ (serMTail ms2 ++ ['}']))) from by
          simp [List.append_assoc]]
        rw [feedFin_cons_cont _ _ _ _ _ _ (by simp) (key_start_delegate _ _ _ rfl)]
        rw [hrec]
        simp
termination_by kk v ms _ _ _ _ _ _ => 1 + sizeOf v + sizeOf ms

end

/-- C1: counterexample for top-level numbers. `1` is a valid JSON value whose
serialization is the single byte `1`, yet feeding it from an absent node yields
Continue on its final (only) byte — no Complete signal is ever produced for the
bare number, because `state_number` only completes on a later delimiter byte. -/
theorem c1_counterexample :
    validV (JVal.num ['1']) = true ∧ ser (JVal.num ['1']) = ['1'] ∧
      (runAll none [] (ser (JVal.num ['1']))).1 = [Ret.cont] :=
  ⟨rfl, rfl, rfl⟩

/-- C1 (amended): for every valid JSON value V that is not a top-level number
(within the spec's non-goals and the 127-byte string/key capacity captured by
`validStr`), feeding the bytes of V one at a time through `cJSON_Put`, starting
from an absent node and passing the returned node back, yields Continue on
every byte but the last, Complete exactly on the final byte with a result tree
representing V's kinds, keys, values and child order, and every strict prefix
yields Continue on every call. Top-level numbers (see the counterexample)
instead stay in Continue until some later delimiter byte arrives. -/
theorem c1_amended (V : JVal) (hv : validV V = true) (hnum : isNumV V = false) :
    ∃ n : JNode,
      runAll none [] (ser V) =
        (List.replicate ((ser V).length - 1) Ret.cont ++ [Ret.done], some n, []) ∧
      reprV V n = true ∧
      ∀ k, k < (ser V).length →
        (runAll none [] ((ser V).take k)).1 = List.replicate k Ret.cont := by
  obtain ⟨n2, hfeed, hrepr, hstr⟩ := feedVal V ⟨CType.invalid, 0, none, none, 0⟩
    hv hnum rfl rfl
  have hne : ser V ≠ [] := by
    intro h
    rw [h] at hfeed
    exact Option.noConfusion hfeed
  refine ⟨n2, ?_, hrepr, ?_⟩
  · rw [runAll_none_eq_some_zero _ _ hne, zeroNode_eq,
      runAll_of_feedFin _ _ _ _ _ hfeed]
  · intro k hk
    obtain ⟨p, hp⟩ := Option.isSome_iff_exists.mp
      (feedFin_take _ _ _ _ hfeed k hk)
    cases k with
    | zero => rfl
    | succ k =>
      have hne2 : (ser V).take (k + 1) ≠ [] := by
        intro h
        rcases List.take_eq_nil_iff.mp h with h | h
        · exact Nat.succ_ne_zero k h
        · exact hne h
      rw [runAll_none_eq_some_zero _ _ hne2, zeroNode_eq,
        runAll_of_feedSeq _ _ _ p.1 p.2 (by rw [hp])]
      simp [List.length_take, Nat.le_of_lt hk]

/-- C1 witness: the amended claim instantiated at the spec's example value
`\x7b"a":1,"b":[true,false,null]\x7d`, whose hypotheses hold by computation. -/
theorem c1_witness :
    validV exampleV = true ∧ isNumV exampleV = false ∧
      ∃ n : JNode,
        runAll none [] (ser exampleV) =
          (List.replicate ((ser exampleV).length - 1) Ret.cont ++ [Ret.done],
            some n, []) ∧
        reprV exampleV n = true ∧
        ∀ k, k < (ser exampleV).length →
          (runAll none [] ((ser exampleV).take k)).1 = List.replicate k Ret.cont :=
  ⟨by decide, by decide, c1_amended exampleV (by decide) (by decide)⟩
